import Mathlib

/-!
# ember-test-audit: the timing aggregation engine of `index.js`

A shallow embedding of `addMetadata`, `aggregateTimings`, `mergeAssertions`,
`rollupModule`, `statsFor`, of the ranking (`sortBy(..., ['avg']).reverse()`)
and of the report (`getComplete`, `printSummary`, `humanDuration`,
`withCommas`), followed by theorems about them.

Modelling conventions.

* A JavaScript object is a structure whose fields are `Option`s: `none` is an
  absent property (reading it gives `undefined`).
* A JavaScript number is a `JSNum`: a double whose value is an integer, `NaN`,
  or an infinity. Durations are the integers written in the labels, so every
  number the pipeline stores is of that kind.
* Arithmetic rounds as doubles do: `+duration`, `+` and `/` give the double
  nearest to the exact result (53 significant bits, ties to even; see
  `nearestDouble`, `roundNat`), `%` and `Math.floor` are exact, and
  `Math.round(x / n)` is the floor of the rounded quotient plus one half. A
  sum or a numeric string of magnitude `2^1024 - 2^970` or more is an infinity
  (`JSNum.ofInt`).
* lodash `groupBy` builds a plain object; `Object.keys` / `Object.values`
  enumerate array-index keys first, in ascending numeric order, and the other
  keys in insertion order.
* The text of an integer below `2^53` is its decimal digits (`Nat.toDigits 10`);
  above, `numberText` gives the shortest digits that identify the double.
* A line logged by `printSummary` is the list of its pieces, each with the chalk
  style applied to it; `getComplete` is the list of lines it joins.
-/

namespace EmberTestAudit

/-! ## Numbers -/

/-- A JavaScript number as the pipeline sees it: a double whose value is an
integer, `NaN`, or an infinity. -/
inductive JSNum where
  | int (i : Int)
  | nan
  | posInf
  | negInf
deriving DecidableEq

/-- The power `2^52`: a double has 53 significant bits, so its significand lies
between `2^52` and `2^53`. -/
def twoPow52 : Nat := 4503599627370496

/-- The power `2^53`: every integer up to it is a double. -/
def twoPow53 : Nat := 9007199254740992

/-- The integer nearest to `x / y` (for `y > 0`), a tie going to the even one. -/
def roundHalfEven (x y : Nat) : Nat :=
  if 2 * (x % y) < y then x / y
  else if y < 2 * (x % y) then x / y + 1
  else if (x / y) % 2 = 0 then x / y
  else x / y + 1

/-- The number of doublings that bring `x` (not 0) up to `b`. -/
def scaleUp : Nat → Nat → Nat → Nat
  | 0, _, _ => 0
  | fuel + 1, x, b => if x < b then scaleUp fuel (2 * x) b + 1 else 0

/-- The number of doublings that bring `c` (not 0) above `x`. -/
def scaleDown : Nat → Nat → Nat → Nat
  | 0, _, _ => 0
  | fuel + 1, x, c => if c ≤ x then scaleDown fuel x (2 * c) + 1 else 0

/-- The double nearest to the quotient `x / y` of two natural numbers (`y > 0`),
ties to even, as a pair `(num, den)` standing for `num / den` with `den` a
power of two: the quotient is scaled by a power of two into `[2^52, 2^53)`,
rounded to an integer and scaled back. -/
def nearestDouble (x y : Nat) : Nat × Nat :=
  if x = 0 then (0, 1)
  else if twoPow53 * y ≤ x then
    (roundHalfEven x (y * 2 ^ scaleDown x x (twoPow53 * y)) *
      2 ^ scaleDown x x (twoPow53 * y), 1)
  else
    (roundHalfEven (x * 2 ^ scaleUp (twoPow52 * y) x (twoPow52 * y)) y,
      2 ^ scaleUp (twoPow52 * y) x (twoPow52 * y))

/-- The double nearest to a natural number. -/
def roundNat (n : Nat) : Nat :=
  if n < twoPow53 then n else (nearestDouble n 1).1

/-- The double nearest to an integer. -/
def roundInt (z : Int) : Int :=
  if 0 ≤ z then (roundNat z.toNat : Int) else -(roundNat z.natAbs : Int)

/-- The value of `Math.round` at the number `z / den`: the floor of
`z / den + 1/2`. -/
def mathRound (z : Int) (den : Nat) : Int :=
  (2 * z + (den : Int)) / (2 * (den : Int))

/-- The magnitude from which an exact value has no finite nearest double:
`2^1024 - 2^970`, half way between the largest double and `2^1024`. -/
def overflowBound : Nat :=
  179769313486231580793728971405303415079934132710037826936173778980444968292764750946649017977587207096330286416692887910946555547851940402630657488671505820681908902000708383676273854845817711531764475730270069855571366959622842914819860834936475292719074168444365510704342711559699508093042880177904174497792

/-- The power `2^1023`, a double; twice it is past the largest double. -/
def twoPow1023 : Nat :=
  89884656743115795386465259539451236680898848947115328636715040578866337902750481566354238661203768010560056939935696678829394884407208311246423715319737062188883946712432742638151109800623047059726541476042502884419075341171231440736956555270413618581675255342293149119973622969239858152417678164812112068608

namespace JSNum

/-- The number that stands for an exact integer value: the nearest double, an
infinity when the magnitude reaches `overflowBound`. -/
def ofInt (z : Int) : JSNum :=
  if z.natAbs < overflowBound then int (roundInt z)
  else if 0 ≤ z then posInf
  else negInf

/-- The `+` of two numbers: the double nearest to the sum. -/
def add : JSNum → JSNum → JSNum
  | int a, int b => ofInt (a + b)
  | nan, _ => nan
  | _, nan => nan
  | posInf, negInf => nan
  | negInf, posInf => nan
  | posInf, _ => posInf
  | _, posInf => posInf
  | negInf, _ => negInf
  | _, negInf => negInf

/-- The `sum + a.duration` of a number and a property that may be absent:
`undefined` is converted to `NaN`. -/
def addField (x : JSNum) : Option JSNum → JSNum
  | some y => add x y
  | none => nan

/-- The value of `Math.round(x / n)` for a number `x` and an array length `n`:
`Math.round` applied to the double nearest to the quotient. -/
def roundDiv : JSNum → Nat → JSNum
  | nan, _ => nan
  | posInf, _ => posInf
  | negInf, _ => negInf
  | int a, 0 => if a = 0 then nan else if 0 < a then posInf else negInf
  | int a, n + 1 =>
    int (mathRound
      (if a < 0 then -((nearestDouble a.natAbs (n + 1)).1 : Int)
       else ((nearestDouble a.natAbs (n + 1)).1 : Int))
      (nearestDouble a.natAbs (n + 1)).2)

/-- The `x > 0` test on a number. -/
def gtZero : JSNum → Bool
  | int a => decide (0 < a)
  | posInf => true
  | _ => false

/-- The `x > y` test on two numbers (false as soon as one is `NaN`). -/
def gt : JSNum → JSNum → Bool
  | int a, int b => decide (b < a)
  | posInf, int _ => true
  | posInf, negInf => true
  | int _, negInf => true
  | _, _ => false

end JSNum

/-- The `x > 0` test on a count property that may be absent. -/
def countGtZero : Option Nat → Bool
  | some n => decide (0 < n)
  | none => false

/-! ## The label pattern `/^(.+?)\s-\s\[(\d+) ms\] - (.+?): (.+)$/` -/

/-- Line terminators: the characters `.` does not match. -/
def isLineTerminator (c : Char) : Bool :=
  c.toNat = 0x0A || c.toNat = 0x0D || c.toNat = 0x2028 || c.toNat = 0x2029

/-- The characters `\s` matches. -/
def isWhiteSpace (c : Char) : Bool :=
  let n := c.toNat
  n = 0x09 || n = 0x0A || n = 0x0B || n = 0x0C || n = 0x0D || n = 0x20 || n = 0xA0 ||
  n = 0x1680 || (0x2000 ≤ n && n ≤ 0x200A) || n = 0x2028 || n = 0x2029 || n = 0x202F ||
  n = 0x205F || n = 0x3000 || n = 0xFEFF

/-- Removes a literal prefix, if present. -/
def dropLiteral : List Char → List Char → Option (List Char)
  | [], s => some s
  | _ :: _, [] => none
  | p :: ps, c :: cs => if p = c then dropLiteral ps cs else none

/-- The value of a string of decimal digits. -/
def digitsValue (ds : List Char) : Nat :=
  ds.foldl (fun n c => 10 * n + (c.toNat - 48)) 0

/-- The end of the pattern, `: (.+)$`, at the current position: gives the test. -/
def matchTest (s : List Char) : Option (List Char) :=
  match dropLiteral [':', ' '] s with
  | none => none
  | some t => if t ≠ [] ∧ t.all (fun c => !isLineTerminator c) then some t else none

/-- The lazy group `(.+?)` followed by `: (.+)$`: `m` is the module read so far
(not empty); it grows by one character each time the rest fails to match. -/
def splitModule : List Char → List Char → Option (List Char × List Char)
  | _, [] => none
  | m, c :: cs =>
    match matchTest (c :: cs) with
    | some t => some (m, t)
    | none => if isLineTerminator c then none else splitModule (m ++ [c]) cs

/-- The part `\s-\s\[(\d+) ms\] - (.+?): (.+)$` after the browser: gives the
digits, the module and the test. -/
def matchTail (s : List Char) : Option (List Char × List Char × List Char) :=
  match s with
  | w1 :: '-' :: w2 :: '[' :: rest =>
    if isWhiteSpace w1 && isWhiteSpace w2 then
      let ds := rest.takeWhile Char.isDigit
      if ds = [] then none
      else
        match dropLiteral [' ', 'm', 's', ']', ' ', '-', ' '] (rest.dropWhile Char.isDigit) with
        | some (c :: cs) =>
          if isLineTerminator c then none
          else
            match splitModule [c] cs with
            | some (m, t) => some (ds, m, t)
            | none => none
        | _ => none
    else none
  | _ => none

/-- The lazy group `(.+?)` at the start followed by the rest of the pattern: `b`
is the browser read so far (not empty). -/
def splitBrowser : List Char → List Char →
    Option (List Char × List Char × List Char × List Char)
  | _, [] => none
  | b, c :: cs =>
    match matchTail (c :: cs) with
    | some r => some (b, r)
    | none => if isLineTerminator c then none else splitBrowser (b ++ [c]) cs

/-- The groups captured by `name.match(...)`. -/
structure LabelMatch where
  browser : String
  duration : Nat
  module : String
  test : String
deriving DecidableEq

/-- The result of `name.match(/^(.+?)\s-\s\[(\d+) ms\] - (.+?): (.+)$/)`; `none`
is `null`. The duration group is kept as the value of its digits. -/
def matchLabel (name : String) : Option LabelMatch :=
  match name.data with
  | [] => none
  | c :: cs =>
    if isLineTerminator c then none
    else
      match splitBrowser [c] cs with
      | some (b, ds, m, t) =>
        some { browser := String.mk b, duration := digitsValue ds,
               module := String.mk m, test := String.mk t }
      | none => none

/-! ## Records -/

/-- An assertion as the TAP parser reports it. -/
structure RawAssertion where
  name : String
  ok : Bool
deriving DecidableEq

/-- An assertion object at any stage of the pipeline: the parser's `name` and
`ok`, the five properties `addMetadata` adds, and the properties
`mergeAssertions` sets. -/
structure Assertion where
  name : Option String := none
  ok : Option Bool := none
  browser : Option String := none
  module : Option String := none
  test : Option String := none
  duration : Option JSNum := none
  id : Option String := none
  passes : Option Nat := none
  failures : Option Nat := none
  avg : Option JSNum := none
  durations : Option (List (Option JSNum)) := none
deriving DecidableEq

/-- The object the parser hands over: only `name` and `ok` are present. -/
def Assertion.ofRaw (a : RawAssertion) : Assertion :=
  { name := some a.name, ok := some a.ok }

/-- A frame of the parsed output. -/
structure Frame (α : Type) where
  asserts : List α
deriving DecidableEq

/-- The body of the inner `forEach` of `addMetadata`, for one assertion. -/
def decorate (a : RawAssertion) : Assertion :=
  match matchLabel a.name with
  | some m =>
    { Assertion.ofRaw a with
      browser := some m.browser
      module := some m.module
      test := some m.test
      duration := some (JSNum.ofInt (m.duration : Int))
      id := some (m.module ++ ": " ++ m.test) }
  | none => Assertion.ofRaw a

/-- `addMetadata(tapJson)` for one run. -/
def addMetadata (tapJson : List (Frame RawAssertion)) : List (Frame Assertion) :=
  tapJson.map (fun frame => { asserts := frame.asserts.map decorate })

/-! ## Grouping -/

/-- The property key a value is stored under: `undefined` becomes the string
`"undefined"`. -/
def propertyKey : Option String → String
  | some s => s
  | none => "undefined"

/-- Appends `x` to the group stored under `k`, creating it at the end if there
is none yet. -/
def groupInsert {α : Type} (k : String) (x : α) :
    List (String × List α) → List (String × List α)
  | [] => [(k, [x])]
  | (k', xs) :: rest =>
    if k' = k then (k', xs ++ [x]) :: rest else (k', xs) :: groupInsert k x rest

/-- The properties of the object built by lodash `groupBy`, in insertion order. -/
def groupByInsertion {α : Type} (key : α → String) (xs : List α) : List (String × List α) :=
  xs.foldl (fun acc x => groupInsert (key x) x acc) []

/-- Whether a property key is an array index: the canonical decimal form of an
integer below `2^32 - 1`. -/
def isArrayIndex (k : String) : Bool :=
  match k.data with
  | [] => false
  | c :: cs =>
    (c :: cs).all Char.isDigit && (c != '0' || cs.isEmpty) &&
      decide (digitsValue (c :: cs) < 4294967295)

/-- The order in which `Object.keys` and `Object.values` enumerate properties:
array indices ascending, then the other keys in insertion order. -/
def ownPropertyOrder {β : Type} (props : List (String × β)) : List (String × β) :=
  (props.filter (fun p => isArrayIndex p.1)).insertionSort
      (fun p q => digitsValue p.1.data ≤ digitsValue q.1.data) ++
    props.filter (fun p => !isArrayIndex p.1)

/-- The object `groupBy(xs, key)`, as the list of its properties in enumeration
order. -/
def groupBy {α : Type} (key : α → String) (xs : List α) : List (String × List α) :=
  ownPropertyOrder (groupByInsertion key xs)

/-! ## Merging and rollup -/

/-- `mergeAssertions(assertions)`. -/
def mergeAssertions (assertions : List Assertion) : Assertion :=
  let passing := assertions.filter (fun a => a.ok = some true)
  let passes := passing.length
  let failures := assertions.length - passes
  let avg := JSNum.roundDiv
    (passing.foldl (fun sum a => JSNum.addField sum a.duration) (JSNum.int 0)) passes
  let first : Assertion := assertions.head?.getD {}
  let aggregate : Assertion :=
    { first with
      passes := first.passes.orElse (fun _ => some passes)
      failures := first.failures.orElse (fun _ => some failures)
      avg := first.avg.orElse (fun _ => some avg) }
  { aggregate with
    durations := some (assertions.map (fun a => a.duration))
    name := aggregate.id
    ok := none
    duration := none }

/-- The object `statsFor` returns. -/
structure Stats where
  passes : Nat := 0
  failures : Nat := 0
  flaky : Nat := 0
  duration : JSNum := JSNum.int 0
deriving DecidableEq

/-- The body of the `forEach` of `statsFor`, for one test. -/
def statsStep (stats : Stats) (a : Assertion) : Stats :=
  let counted : Stats :=
    if countGtZero a.passes && countGtZero a.failures then
      { stats with flaky := stats.flaky + 1 }
    else if countGtZero a.passes then
      { stats with passes := stats.passes + 1 }
    else
      { stats with failures := stats.failures + 1 }
  { counted with duration := JSNum.addField counted.duration a.avg }

/-- `statsFor(tests)`. -/
def statsFor (tests : List Assertion) : Stats :=
  tests.foldl statsStep {}

/-- The object `rollupModule` returns. -/
structure ModuleStats where
  passes : Nat
  failures : Nat
  flaky : Nat
  duration : JSNum
  module : String
  tests : List Assertion
  avg : JSNum
deriving DecidableEq

/-- `rollupModule(name, tests)`. -/
def rollupModule (name : String) (tests : List Assertion) : ModuleStats :=
  let stats := statsFor tests
  { passes := stats.passes
    failures := stats.failures
    flaky := stats.flaky
    duration := stats.duration
    module := name
    tests := tests
    avg := JSNum.roundDiv stats.duration tests.length }

/-- The object `aggregateTimings` returns. -/
structure Timings where
  all : List Assertion
  modules : List ModuleStats
deriving DecidableEq

/-- The flattened sequence `flatten(tapJson.map(tap => flatten(tap.map(t => t.asserts))))`. -/
def flattenRuns {α : Type} (tapJson : List (List (Frame α))) : List α :=
  (tapJson.map (fun tap => (tap.map (fun t => t.asserts)).flatten)).flatten

/-- `aggregateTimings(tapJson)`. -/
def aggregateTimings (tapJson : List (List (Frame Assertion))) : Timings :=
  let isAverage := decide (tapJson.length > 1)
  let joined := flattenRuns tapJson
  let joined :=
    if isAverage then
      (groupBy (fun a => propertyKey a.id) joined).map (fun p => mergeAssertions p.2)
    else joined
  { all := joined
    modules := (groupBy (fun a => propertyKey a.module) joined).map
      (fun p => rollupModule p.1 p.2) }

/-- The pipeline of `main`: `json.forEach(addMetadata)` then `aggregateTimings(json)`. -/
def audit (json : List (List (Frame RawAssertion))) : Timings :=
  aggregateTimings (json.map addMetadata)

/-! ## Ranking -/

/-- The `value > other` test of lodash `compareAscending` on two `avg`
properties: `undefined` compares as `NaN`. -/
def criteriaGt : Option JSNum → Option JSNum → Bool
  | some a, some b => JSNum.gt a b
  | _, _ => false

/-- `compareAscending(value, other)` of lodash on two `avg` properties (numbers
or `undefined`; never `null` or a symbol). -/
def compareAscending (value other : Option JSNum) : Int :=
  let valIsDefined := value.isSome
  let valIsReflexive := decide (value ≠ some JSNum.nan)
  let othIsDefined := other.isSome
  let othIsReflexive := decide (other ≠ some JSNum.nan)
  if value ≠ other ∨ value = some JSNum.nan then
    if criteriaGt value other || (!valIsDefined && othIsReflexive) || !valIsReflexive then 1
    else if criteriaGt other value || (!othIsDefined && valIsReflexive) || !othIsReflexive
    then -1
    else 0
  else 0

/-- `sortBy(xs, ['avg'])` of lodash: a stable sort, ascending for
`compareAscending` on the `avg` property. (Several `NaN` keys make the
comparator inconsistent; the theorems below do not rely on that case.) -/
def sortBy {α : Type} (avg : α → Option JSNum) (xs : List α) : List α :=
  xs.insertionSort (fun a b => compareAscending (avg a) (avg b) ≤ 0)

/-- The ranking of `printSummary` and `getComplete`: `sortBy(xs, ['avg']).reverse()`. -/
def ranking {α : Type} (avg : α → Option JSNum) (xs : List α) : List α :=
  (sortBy avg xs).reverse

/-! ## Vocabulary of the specification -/

/-- The distinct values of a list, in order of first appearance. -/
def firstOccurrences {α : Type} [DecidableEq α] : List α → List α
  | [] => []
  | a :: l => a :: (firstOccurrences l).filter (fun b => decide (b ≠ a))

/-- The sum over the records of `passes + failures`; `none` when a record lacks
one of the two properties (the sum is then not a number). -/
def occurrenceTotal : List Assertion → Option Nat
  | [] => some 0
  | r :: rs =>
    match r.passes, r.failures, occurrenceTotal rs with
    | some p, some f, some t => some (p + f + t)
    | _, _, _ => none

/-- Whether the label of a raw assertion matches the pattern. -/
def labelMatches (a : RawAssertion) : Bool :=
  (matchLabel a.name).isSome

/-- An `id` as `addMetadata` writes it holds a colon (it is `module + ": " + test`);
an absent `id` qualifies too. -/
def IsLabelId (o : Option String) : Prop :=
  ∀ s, o = some s → ':' ∈ s.data

/-- Scenario A: one run, two passing assertions of "Suite A". -/
def scenarioA : List (List (Frame RawAssertion)) :=
  [[{ asserts := [{ name := "chrome - [120 ms] - Suite A: adds numbers", ok := true },
                  { name := "chrome - [340 ms] - Suite A: subtracts numbers", ok := true }] }]]

/-- Scenario B: two runs, the same test passing in 150 ms and then failing in 0 ms. -/
def scenarioB : List (List (Frame RawAssertion)) :=
  [[{ asserts := [{ name := "chrome - [150 ms] - Suite A: adds numbers", ok := true }] }],
   [{ asserts := [{ name := "chrome - [0 ms] - Suite A: adds numbers", ok := false }] }]]

/-- Scenario C: one run with a matching assertion and one whose label has no metadata. -/
def scenarioC : List (List (Frame RawAssertion)) :=
  [[{ asserts := [{ name := "chrome - [120 ms] - Suite A: adds numbers", ok := true },
                  { name := "some raw assert", ok := true }] }]]

/-- Two runs that both report the assertion of scenario C without metadata. -/
def scenarioC2 : List (List (Frame RawAssertion)) :=
  [[{ asserts := [{ name := "some raw assert", ok := true }] }],
   [{ asserts := [{ name := "some raw assert", ok := true }] }]]

/-- Two runs of four passing tests: one of module A that takes 9007199254740991 ms
(`2^53 - 1`) and three of module B that take 1 ms each. -/
def largeRuns : List (List (Frame RawAssertion)) :=
  [[{ asserts := [{ name := "chrome - [9007199254740991 ms] - A: t1", ok := true },
                  { name := "chrome - [1 ms] - B: t2", ok := true },
                  { name := "chrome - [1 ms] - B: t3", ok := true },
                  { name := "chrome - [1 ms] - B: t4", ok := true }] }],
   [{ asserts := [{ name := "chrome - [9007199254740991 ms] - A: t1", ok := true },
                  { name := "chrome - [1 ms] - B: t2", ok := true },
                  { name := "chrome - [1 ms] - B: t3", ok := true },
                  { name := "chrome - [1 ms] - B: t4", ok := true }] }]]

/-! ## Formatting -/

/-- The integer with the fewest significant digits whose nearest double is `x`
(the closest to `x` if several have as few, the even one on a tie), found by
trying the multiples of `10^j` next to `x` for decreasing `j`. -/
def shortestDecimal (x : Nat) : Nat → Nat
  | 0 => x
  | j + 1 =>
    if roundNat (x / 10 ^ (j + 1) * 10 ^ (j + 1)) = x ∧
        roundNat (x / 10 ^ (j + 1) * 10 ^ (j + 1) + 10 ^ (j + 1)) = x then
      if 2 * (x % 10 ^ (j + 1)) < 10 ^ (j + 1) then x / 10 ^ (j + 1) * 10 ^ (j + 1)
      else if 10 ^ (j + 1) < 2 * (x % 10 ^ (j + 1)) then
        x / 10 ^ (j + 1) * 10 ^ (j + 1) + 10 ^ (j + 1)
      else if (x / 10 ^ (j + 1)) % 2 = 0 then x / 10 ^ (j + 1) * 10 ^ (j + 1)
      else x / 10 ^ (j + 1) * 10 ^ (j + 1) + 10 ^ (j + 1)
    else if roundNat (x / 10 ^ (j + 1) * 10 ^ (j + 1)) = x then
      x / 10 ^ (j + 1) * 10 ^ (j + 1)
    else if roundNat (x / 10 ^ (j + 1) * 10 ^ (j + 1) + 10 ^ (j + 1)) = x then
      x / 10 ^ (j + 1) * 10 ^ (j + 1) + 10 ^ (j + 1)
    else shortestDecimal x j

/-- The exponent form of an integer with few significant digits: first digit, a
dot and the other significant digits if any, `e+` and the exponent. -/
def exponentText (c : Nat) : List Char :=
  match ((Nat.toDigits 10 c).reverse.dropWhile (fun d => d == '0')).reverse with
  | [] => []
  | d :: rest =>
    d :: (if rest.isEmpty then [] else '.' :: rest) ++ ['e', '+'] ++
      Nat.toDigits 10 ((Nat.toDigits 10 c).length - 1)

/-- The text of a non-negative integer-valued double: its decimal digits up to
`2^53`; above, the fewest digits that identify the double, followed by zeros
below `10^21` and in exponent form from `10^21` on. -/
def numberText (n : Nat) : List Char :=
  if n < twoPow53 then Nat.toDigits 10 n
  else if shortestDecimal n ((Nat.toDigits 10 n).length - 1) < 10 ^ 21 then
    Nat.toDigits 10 (shortestDecimal n ((Nat.toDigits 10 n).length - 1))
  else exponentText (shortestDecimal n ((Nat.toDigits 10 n).length - 1))


namespace JSNum

/-- The number an arithmetic operator or a comparison reads from a property that
may be absent: `undefined` becomes `NaN`. -/
def ofField : Option JSNum → JSNum
  | some x => x
  | none => nan

/-- The text of a number, as `number.toString()` and a template literal give it. -/
def toJSString : JSNum → String
  | int (Int.ofNat n) => String.mk (numberText n)
  | int (Int.negSucc n) => String.mk ('-' :: numberText (n + 1))
  | nan => "NaN"
  | posInf => "Infinity"
  | negInf => "-Infinity"

/-- The `x % k` of a number and a positive integer constant: the remainder has
the sign of `x` (the operation is exact on doubles). -/
def rem : JSNum → Nat → JSNum
  | int d, k => int (Int.tmod d (k : Int))
  | _, _ => nan

/-- The value of `Math.floor((x / 1000) % 60)`: the division gives the nearest
double, the remainder and the floor are exact. -/
def floorSeconds : JSNum → JSNum
  | int d =>
    int ((if d < 0
          then -(((nearestDouble d.natAbs 1000).1 % (60 * (nearestDouble d.natAbs 1000).2) : Nat)
            : Int)
          else (((nearestDouble d.natAbs 1000).1 % (60 * (nearestDouble d.natAbs 1000).2) : Nat)
            : Int)) /
      ((nearestDouble d.natAbs 1000).2 : Int))
  | _ => nan

/-- The value of `Math.floor(x / 1000 / 60)`: each division gives the nearest
double. -/
def floorMinutes : JSNum → JSNum
  | int d =>
    int ((if d < 0
          then -((nearestDouble (nearestDouble d.natAbs 1000).1
            (60 * (nearestDouble d.natAbs 1000).2)).1 : Int)
          else ((nearestDouble (nearestDouble d.natAbs 1000).1
            (60 * (nearestDouble d.natAbs 1000).2)).1 : Int)) /
      ((nearestDouble (nearestDouble d.natAbs 1000).1
        (60 * (nearestDouble d.natAbs 1000).2)).2 : Int))
  | x => x

/-- The `x < k` test against an integer constant. -/
def ltNat : JSNum → Nat → Bool
  | int d, k => decide (d < (k : Int))
  | negInf, _ => true
  | _, _ => false

/-- The `x > k` test against an integer constant. -/
def gtNat : JSNum → Nat → Bool
  | int d, k => decide ((k : Int) < d)
  | posInf, _ => true
  | _, _ => false

/-- Whether a number is truthy in `if (x)`: neither zero nor `NaN`. -/
def truthy : JSNum → Bool
  | int d => decide (d ≠ 0)
  | nan => false
  | _ => true

end JSNum

/-- `humanDuration(duration)`. -/
def humanDuration (duration : JSNum) : String :=
  let ms := duration.rem 1000
  let s := duration.floorSeconds
  let m := duration.floorMinutes
  let fs := if s.ltNat 10 then "0" ++ s.toJSString else s.toJSString
  let fms :=
    if ms.ltNat 10 then "00" ++ ms.toJSString
    else if ms.ltNat 100 then "0" ++ ms.toJSString
    else ms.toJSString
  if m.truthy then m.toJSString ++ "m " ++ fs ++ "s " ++ fms ++ "ms"
  else if s.truthy then fs ++ "s " ++ fms ++ "ms"
  else fms ++ "ms"

/-- The destructuring `[whole, decimal] = str.split('.')`: the text before the
first dot, and the text between the first and the second dot if there is a dot. -/
def splitDot (str : List Char) : List Char × Option (List Char) :=
  match str.dropWhile (fun c => c != '.') with
  | [] => (str.takeWhile (fun c => c != '.'), none)
  | _ :: rest => (str.takeWhile (fun c => c != '.'), some (rest.takeWhile (fun c => c != '.')))

/-- `whole.splice(i, 0, ',')`. -/
def spliceComma (i : Nat) (whole : List Char) : List Char :=
  whole.take i ++ ',' :: whole.drop i

/-- The loop `for (i = ...; i > 0; i -= 3) whole.splice(i, 0, ',')`, from the
current value of `i` (a start below zero is 0 here: no iteration either way). -/
def commaLoop : Nat → List Char → List Char
  | 0, whole => whole
  | 1, whole => spliceComma 1 whole
  | 2, whole => spliceComma 2 whole
  | i + 3, whole => commaLoop i (spliceComma (i + 3) whole)

/-- `withCommas(number)`. -/
def withCommas (number : JSNum) : String :=
  let parts := splitDot number.toJSString.data
  let whole := commaLoop (parts.1.length - 3) parts.1
  match parts.2 with
  | some (c :: cs) => String.mk (whole ++ '.' :: c :: cs)
  | _ => String.mk whole

/-- The text a template literal gives for a string property that may be absent. -/
def templateText : Option String → String
  | some s => s
  | none => "undefined"

/-! ## The report and the summary -/

/-- The totals line, built the same way by `printSummary` and `getComplete` from
`statsFor(aggregation.all)`. -/
def totalsLine (stats : Stats) : String :=
  let details :=
    if stats.flaky ≠ 0 ∧ stats.failures ≠ 0 then
      " (" ++ withCommas (JSNum.int stats.failures) ++ " failures, " ++
        withCommas (JSNum.int stats.flaky) ++ " flaky)"
    else if stats.flaky ≠ 0 then " (" ++ withCommas (JSNum.int stats.flaky) ++ " flaky)"
    else if stats.failures ≠ 0 then " (" ++ withCommas (JSNum.int stats.failures) ++ " failures)"
    else ""
  let formattedTotalTests :=
    withCommas (JSNum.int ((stats.passes + stats.failures + stats.flaky : Nat) : Int))
  let formattedTotalTime :=
    withCommas stats.duration ++ "ms (" ++ humanDuration stats.duration ++ ")"
  "Total Tests: " ++ formattedTotalTests ++ details ++ " Total Time: " ++ formattedTotalTime

/-- The line `getComplete` writes for a module. -/
def reportModuleLine (m : ModuleStats) : String :=
  humanDuration m.avg ++ " avg per test (" ++ humanDuration m.duration ++ " total): " ++ m.module

/-- The line `getComplete` writes for a test. -/
def reportTestLine (t : Assertion) : String :=
  humanDuration (JSNum.ofField t.avg) ++ ": " ++ templateText t.name

/-- The array `file` of `getComplete(aggregation)` before it is joined. -/
def getCompleteLines (aggregation : Timings) : List String :=
  [totalsLine (statsFor aggregation.all), "", "Modules (avg)"] ++
    (ranking (fun m => some m.avg) aggregation.modules).map reportModuleLine ++
    ["", "Tests (avg)"] ++
    (ranking (fun t => t.avg) aggregation.all).map reportTestLine

/-- `getComplete(aggregation)`: the lines joined by the platform's end of line. -/
def getComplete (eol : String) (aggregation : Timings) : String :=
  eol.intercalate (getCompleteLines aggregation)

/-- The chalk styles `printSummary` uses. -/
inductive Style where
  | plain
  | bold
  | green
  | yellow
  | red
  | gray
deriving DecidableEq

/-- The method chosen for a module line: `'green'`, then `'yellow'` if
`module.avg > 800`, then `'red'` if `module.avg > 3000`. -/
def moduleMethod (avg : JSNum) : Style :=
  let method := Style.green
  let method := if avg.gtNat 800 then Style.yellow else method
  if avg.gtNat 3000 then Style.red else method

/-- The method chosen for a test line: `'green'`, then `'yellow'` if
`test.avg > 1000`, then `'red'` if `test.avg > 5000`. -/
def testMethod (avg : Option JSNum) : Style :=
  let method := Style.green
  let method := if (JSNum.ofField avg).gtNat 1000 then Style.yellow else method
  if (JSNum.ofField avg).gtNat 5000 then Style.red else method

/-- The modules `printSummary` lists: `sortBy(modules, ['avg']).reverse().slice(0, 10)`. -/
def slowestModules (aggregation : Timings) : List ModuleStats :=
  (ranking (fun m => some m.avg) aggregation.modules).take 10

/-- The tests `printSummary` lists: `sortBy(all, ['avg']).reverse().slice(0, 10)`. -/
def slowestTests (aggregation : Timings) : List Assertion :=
  (ranking (fun t => t.avg) aggregation.all).take 10

/-- The line `printSummary` logs for a module, as styled pieces. -/
def summaryModuleLine (m : ModuleStats) : List (Style × String) :=
  [(moduleMethod m.avg, humanDuration m.avg), (Style.plain, " avg per test ("),
   (Style.bold, humanDuration m.duration), (Style.plain, " total): "),
   (Style.gray, m.module)]

/-- The line `printSummary` logs for a test, as styled pieces. -/
def summaryTestLine (t : Assertion) : List (Style × String) :=
  [(testMethod t.avg, humanDuration (JSNum.ofField t.avg)), (Style.plain, ": "),
   (Style.gray, templateText t.name)]

/-- The lines `printSummary(aggregation)` logs, each as styled pieces. -/
def printSummary (aggregation : Timings) : List (List (Style × String)) :=
  [[(Style.bold, totalsLine (statsFor aggregation.all))], [(Style.plain, "")],
   [(Style.bold, "Slowest Modules (avg)")]] ++
    (slowestModules aggregation).map summaryModuleLine ++
    [[(Style.plain, "")], [(Style.bold, "Slowest Tests (avg)")]] ++
    (slowestTests aggregation).map summaryTestLine

/-- An assertion object without the five properties `addMetadata` may add. -/
def withoutMetadata (a : Assertion) : Assertion :=
  { a with browser := none, module := none, test := none, duration := none, id := none }

/-- The decimal digits of `n`, padded with zeros on the left to `width` characters. -/
def zeroPad (width n : Nat) : List Char :=
  List.replicate (width - (Nat.toDigits 10 n).length) '0' ++ Nat.toDigits 10 n

/-- The rendering of a duration of `d` milliseconds from its minutes `m`, seconds
`s` and milliseconds `ms`: `"<m>m <ss>s <mmm>ms"`, without the minutes when
`m = 0`, and without the seconds too when `s = 0` as well. -/
def durationText (d : Nat) : List Char :=
  let m := d / 60000
  let s := d / 1000 % 60
  let ms := d % 1000
  if 0 < m then
    Nat.toDigits 10 m ++ ['m', ' '] ++ zeroPad 2 s ++ ['s', ' '] ++ zeroPad 3 ms ++ ['m', 's']
  else if 0 < s then zeroPad 2 s ++ ['s', ' '] ++ zeroPad 3 ms ++ ['m', 's']
  else zeroPad 3 ms ++ ['m', 's']

/-- An aggregation result with 15 modules of averages 100, 200, ..., 1500 ms, in
that order, and no tests. -/
def fifteenModules : Timings :=
  { all := []
    modules := (List.range 15).map (fun (i : Nat) =>
      { passes := 1, failures := 0, flaky := 0, duration := JSNum.int (100 * ((i : Int) + 1)),
        module := String.mk (Nat.toDigits 10 i), tests := [],
        avg := JSNum.int (100 * ((i : Int) + 1)) }) }

/-! ## Arithmetic of doubles -/

theorem roundNat_of_lt (n : Nat) (h : n < twoPow53) : roundNat n = n := by
  simp [roundNat, h]

theorem roundInt_natCast (n : Nat) (h : n < twoPow53) : roundInt (n : Int) = (n : Int) := by
  have h0 : (0 : Int) ≤ (n : Int) := Int.natCast_nonneg n
  simp [roundInt, h0, roundNat_of_lt n h]

theorem twoPow53_lt_overflowBound : twoPow53 < overflowBound := by
  decide

theorem ofInt_natCast (n : Nat) (h : n < twoPow53) :
    JSNum.ofInt (n : Int) = JSNum.int (n : Int) := by
  have hb : ((n : Int)).natAbs < overflowBound := by
    rw [Int.natAbs_ofNat]
    exact lt_trans h twoPow53_lt_overflowBound
  unfold JSNum.ofInt
  rw [if_pos hb, roundInt_natCast n h]

theorem add_int_nat (a b : Nat) (h : a + b < twoPow53) :
    JSNum.add (JSNum.int (a : Int)) (JSNum.int (b : Int)) = JSNum.int ((a + b : Nat) : Int) := by
  show JSNum.ofInt ((a : Int) + (b : Int)) = _
  rw [← Nat.cast_add, ofInt_natCast _ h]

theorem scaleUp_of_le (fuel x b : Nat) (h : b ≤ x) : scaleUp fuel x b = 0 := by
  cases fuel with
  | zero => rfl
  | succ fuel => simp [scaleUp, Nat.not_lt.mpr h]

theorem scaleUp_spec (fuel : Nat) : ∀ (x b : Nat), 0 < x → b ≤ x * 2 ^ fuel →
    b ≤ x * 2 ^ scaleUp fuel x b ∧ (x < b → x * 2 ^ scaleUp fuel x b < 2 * b) := by
  induction fuel with
  | zero =>
    intro x b _ hb
    simp only [scaleUp, pow_zero, Nat.mul_one] at hb ⊢
    exact ⟨hb, fun h => absurd h (Nat.not_lt.mpr hb)⟩
  | succ fuel ih =>
    intro x b hx hb
    by_cases hlt : x < b
    · have hs : scaleUp (fuel + 1) x b = scaleUp fuel (2 * x) b + 1 := by
        simp [scaleUp, hlt]
      have hb' : b ≤ 2 * x * 2 ^ fuel := by
        rw [pow_succ] at hb
        calc b ≤ x * (2 ^ fuel * 2) := hb
          _ = 2 * x * 2 ^ fuel := by ring
      obtain ⟨i1, i2⟩ := ih (2 * x) b (by omega) hb'
      have he : x * 2 ^ (scaleUp fuel (2 * x) b + 1) = 2 * x * 2 ^ scaleUp fuel (2 * x) b := by
        rw [pow_succ]; ring
      rw [hs, he]
      refine ⟨i1, fun _ => ?_⟩
      by_cases h2 : 2 * x < b
      · exact i2 h2
      · rw [scaleUp_of_le fuel (2 * x) b (by omega)]
        simp only [pow_zero, Nat.mul_one]
        omega
    · have hs : scaleUp (fuel + 1) x b = 0 := by simp [scaleUp, hlt]
      rw [hs]
      simp only [pow_zero, Nat.mul_one]
      exact ⟨by omega, fun h => absurd h hlt⟩

theorem roundHalfEven_bounds (x y : Nat) (hy : 0 < y) :
    2 * (y * roundHalfEven x y) ≤ 2 * x + y ∧ 2 * x ≤ 2 * (y * roundHalfEven x y) + y := by
  have h := Nat.div_add_mod x y
  have hr := Nat.mod_lt x hy
  unfold roundHalfEven
  generalize x / y = q at h ⊢
  generalize x % y = r at h hr ⊢
  have e : y * (q + 1) = y * q + y := by ring
  split_ifs <;> (try rw [e]) <;> omega

/-- The facts about `nearestDouble x y = (n, m)` when `0 < x < 2^53 * y`: `m` is
a power of two with `2^52 * y ≤ x * m`, and `n` is `x * m / y` rounded. -/
theorem nearestDouble_small (x y : Nat) (hx : 0 < x) (hlt : x < twoPow53 * y) :
    ∃ s, (nearestDouble x y).2 = 2 ^ s ∧
      twoPow52 * y ≤ x * 2 ^ s ∧
      (x < twoPow52 * y → x * 2 ^ s < 2 * (twoPow52 * y)) ∧
      (nearestDouble x y).1 = roundHalfEven (x * 2 ^ s) y := by
  have hfuel : twoPow52 * y ≤ x * 2 ^ (twoPow52 * y) := by
    have h1 : twoPow52 * y < 2 ^ (twoPow52 * y) := Nat.lt_two_pow _
    calc twoPow52 * y ≤ 1 * 2 ^ (twoPow52 * y) := by omega
      _ ≤ x * 2 ^ (twoPow52 * y) := Nat.mul_le_mul_right _ hx
  obtain ⟨s1, s2⟩ := scaleUp_spec (twoPow52 * y) x (twoPow52 * y) hx hfuel
  refine ⟨scaleUp (twoPow52 * y) x (twoPow52 * y), ?_, s1, s2, ?_⟩ <;>
    · unfold nearestDouble
      rw [if_neg (Nat.pos_iff_ne_zero.mp hx), if_neg (Nat.not_le.mpr hlt)]

/-- The floor of the nearest double to `x / y` is the floor of `x / y` as soon as
the grid of doubles around the quotient is finer than `2 / y`. -/
theorem floor_of_rounded (x y n m l : Nat) (hy : 0 < y)
    (h1 : 2 * (y * n) ≤ 2 * (x * m) + y) (h2 : 2 * (x * m) ≤ 2 * (y * n) + y)
    (hl1 : l * y ≤ x) (hl2 : x < (l + 1) * y) (hm : y < 2 * m) : n / m = l := by
  have hm0 : 0 < m := by omega
  have a1 : l * y * m ≤ x * m := Nat.mul_le_mul_right m hl1
  have a2 : (x + 1) * m ≤ (l + 1) * y * m := Nat.mul_le_mul_right m hl2
  have e1 : l * y * m = y * (l * m) := by ring
  have e2 : (l + 1) * y * m = y * (l * m) + y * m := by ring
  have e3 : (x + 1) * m = x * m + m := by ring
  rw [e1] at a1
  rw [e2, e3] at a2
  apply Nat.div_eq_of_lt_le
  · -- l * m ≤ n
    by_contra hc
    have hc' : n + 1 ≤ l * m := by omega
    have := Nat.mul_le_mul_left y hc'
    have e4 : y * (n + 1) = y * n + y := by ring
    rw [e4] at this
    omega
  · -- n < (l + 1) * m
    by_contra hc
    have hc' : (l + 1) * m ≤ n := by omega
    have := Nat.mul_le_mul_left y hc'
    have e4 : y * ((l + 1) * m) = y * (l * m) + y * m := by ring
    rw [e4] at this
    omega

theorem mathRound_natCast (n m : Nat) :
    mathRound (n : Int) m = (((2 * n + m) / (2 * m) : Nat) : Int) := by
  unfold mathRound
  norm_cast

/-- `Math.round` of the nearest double to `a / b` is `a / b` rounded to the
nearest integer, halves up, when `a < 2^52`. -/
theorem mathRound_nearestDouble (a b : Nat) (ha : a < twoPow52) (hb : 0 < b) :
    (2 * (nearestDouble a b).1 + (nearestDouble a b).2) / (2 * (nearestDouble a b).2) =
      (2 * a + b) / (2 * b) := by
  by_cases ha0 : a = 0
  · subst ha0
    have : b / (2 * b) = 0 := Nat.div_eq_of_lt (by omega)
    simp [nearestDouble, this]
  · have hapos : 0 < a := Nat.pos_of_ne_zero ha0
    have h53 : a < twoPow53 * b := by
      have : twoPow53 * 1 ≤ twoPow53 * b := Nat.mul_le_mul_left _ hb
      simp only [twoPow52, twoPow53] at *
      omega
    obtain ⟨s, hden, hs1, -, hnum⟩ := nearestDouble_small a b hapos h53
    rw [hden, hnum]
    obtain ⟨r1, r2⟩ := roundHalfEven_bounds (a * 2 ^ s) b hb
    generalize roundHalfEven (a * 2 ^ s) b = n at r1 r2 ⊢
    -- the scale exceeds b
    have hM : b < 2 ^ s := by
      have h1 : a * 2 ^ s < twoPow52 * 2 ^ s :=
        Nat.mul_lt_mul_of_pos_right ha (Nat.two_pow_pos s)
      have h2 : twoPow52 * b < twoPow52 * 2 ^ s := lt_of_le_of_lt hs1 h1
      exact Nat.lt_of_mul_lt_mul_left h2
    have hs0 : s ≠ 0 := by
      rintro rfl
      simp at hM
      omega
    obtain ⟨t, rfl⟩ := Nat.exists_eq_succ_of_ne_zero hs0
    have hpow : 2 ^ (t + 1) = 2 * 2 ^ t := by rw [pow_succ]; ring
    rw [hpow] at r1 r2 hM ⊢
    generalize 2 ^ t = m at r1 r2 hM ⊢
    -- the exact rounding
    have k1 : (2 * b) * ((2 * a + b) / (2 * b)) ≤ 2 * a + b := Nat.mul_div_le _ _
    have k2 : 2 * a + b < (2 * b) * ((2 * a + b) / (2 * b) + 1) :=
      Nat.lt_mul_div_succ _ (by omega)
    generalize (2 * a + b) / (2 * b) = k at k1 k2 ⊢
    have k1m := Nat.mul_le_mul_right m k1
    have k2m := Nat.mul_le_mul_right m (Nat.succ_le_of_lt k2)
    have e1 : 2 * b * k * m = 2 * (b * (k * m)) := by ring
    have e2 : (2 * a + b) * m = 2 * (a * m) + b * m := by ring
    have e3 : (2 * a + b).succ * m = 2 * (a * m) + b * m + m := by
      rw [Nat.succ_mul, e2]
    have e4 : 2 * b * (k + 1) * m = 2 * (b * (k * m)) + 2 * (b * m) := by ring
    have e5 : a * (2 * m) = 2 * (a * m) := by ring
    rw [e1, e2] at k1m
    rw [e3, e4] at k2m
    rw [e5] at r1 r2
    have e8 : k * (2 * (2 * m)) = 4 * (k * m) := by ring
    have e9 : (k + 1) * (2 * (2 * m)) = 4 * (k * m) + 4 * m := by ring
    apply Nat.div_eq_of_lt_le
    · rw [e8]
      by_contra hc
      have hc' : n + m + 1 ≤ 2 * (k * m) := by omega
      have := Nat.mul_le_mul_left b hc'
      have e6 : b * (n + m + 1) = b * n + b * m + b := by ring
      have e7 : b * (2 * (k * m)) = 2 * (b * (k * m)) := by ring
      rw [e6, e7] at this
      omega
    · rw [e9]
      by_contra hc
      have hc' : 2 * (k * m) + 2 * m ≤ n + m := by omega
      have := Nat.mul_le_mul_left b hc'
      have e6 : b * (2 * (k * m) + 2 * m) = 2 * (b * (k * m)) + 2 * (b * m) := by ring
      have e7 : b * (n + m) = b * n + b * m := by ring
      rw [e6, e7] at this
      omega

theorem roundDiv_int (a n : Nat) (ha : a < twoPow52) (hn : 0 < n) :
    JSNum.roundDiv (JSNum.int (a : Int)) n =
      JSNum.int ((2 * (a : Int) + n) / (2 * n)) := by
  cases n with
  | zero => exact absurd hn (lt_irrefl 0)
  | succ k =>
    have hneg : ¬ ((a : Int) < 0) := by omega
    simp only [JSNum.roundDiv, hneg, if_false, Int.natAbs_ofNat, mathRound_natCast,
      mathRound_nearestDouble a (k + 1) ha hn]
    norm_cast

theorem roundDiv_int_exists (a : Int) (n : Nat) (hn : 0 < n) :
    ∃ i : Int, JSNum.roundDiv (JSNum.int a) n = JSNum.int i := by
  cases n with
  | zero => exact absurd hn (lt_irrefl 0)
  | succ k => exact ⟨_, rfl⟩

/-- Summing present natural values with `sum + x` gives their sum, as long as
it stays below `2^53`. -/
theorem foldl_addField_int (ns : List Nat) (s : Nat) (h : s + ns.sum < twoPow53) :
    (ns.map (fun (n : Nat) => some (JSNum.int (n : Int)))).foldl JSNum.addField
        (JSNum.int (s : Int)) =
      JSNum.int ((s + ns.sum : Nat) : Int) := by
  induction ns generalizing s with
  | nil => simp
  | cons n ns ih =>
    rw [List.sum_cons] at h
    simp only [List.map_cons, List.foldl_cons, JSNum.addField, List.sum_cons]
    rw [add_int_nat s n (by omega), ih (s + n) (by omega)]
    congr 2
    omega

/-! ## `statsFor` -/

theorem statsStep_fold (tests : List Assertion) (s : Stats) :
    (tests.foldl statsStep s).flaky = s.flaky +
        tests.countP (fun a => countGtZero a.passes && countGtZero a.failures) ∧
    (tests.foldl statsStep s).passes = s.passes +
        tests.countP (fun a => countGtZero a.passes && !countGtZero a.failures) ∧
    (tests.foldl statsStep s).failures = s.failures +
        tests.countP (fun a => !countGtZero a.passes) ∧
    (tests.foldl statsStep s).duration =
        (tests.map (fun a => a.avg)).foldl JSNum.addField s.duration := by
  induction tests generalizing s with
  | nil => simp
  | cons a tests ih =>
    simp only [List.foldl_cons, List.map_cons, List.countP_cons]
    obtain ⟨h1, h2, h3, h4⟩ := ih (statsStep s a)
    rw [h1, h2, h3, h4]
    unfold statsStep
    cases hp : countGtZero a.passes <;> cases hf : countGtZero a.failures <;>
      simp <;> omega

theorem countGtZero_eq (o : Option Nat) : countGtZero o = decide (0 < o.getD 0) := by
  cases o <;> simp [countGtZero]

theorem statsFor_duration (tests : List Assertion) :
    (statsFor tests).duration =
      (tests.map (fun a => a.avg)).foldl JSNum.addField (JSNum.int 0) :=
  (statsStep_fold tests {}).2.2.2

theorem countP_classes (tests : List Assertion) :
    tests.countP (fun a => decide (0 < a.passes.getD 0 ∧ a.failures.getD 0 = 0)) +
      tests.countP (fun a => decide (a.passes.getD 0 = 0)) +
      tests.countP (fun a => decide (0 < a.passes.getD 0 ∧ 0 < a.failures.getD 0)) =
    tests.length := by
  induction tests with
  | nil => simp
  | cons a tests ih =>
    simp only [List.countP_cons, List.length_cons]
    have key :
        (if decide (0 < a.passes.getD 0 ∧ a.failures.getD 0 = 0) = true then 1 else 0) +
          (if decide (a.passes.getD 0 = 0) = true then 1 else 0) +
          (if decide (0 < a.passes.getD 0 ∧ 0 < a.failures.getD 0) = true then 1 else 0) = 1 := by
      simp only [decide_eq_true_eq]
      split_ifs <;> omega
    omega

/-- C8: `statsFor`, and with it every `rollupModule`, puts each member in
exactly one class. Reading a count as the value of the property (0 when the
property is absent), `flaky` is the number of members with `passes > 0` and
`failures > 0`, `passes` the number with `passes > 0` and `failures = 0`,
`failures` the number with `passes = 0`; so the three add up to the number of
members. -/
theorem statsFor_classification (name : String) (tests : List Assertion) :
    (statsFor tests).flaky =
        tests.countP (fun a => decide (0 < a.passes.getD 0 ∧ 0 < a.failures.getD 0)) ∧
    (statsFor tests).passes =
        tests.countP (fun a => decide (0 < a.passes.getD 0 ∧ a.failures.getD 0 = 0)) ∧
    (statsFor tests).failures = tests.countP (fun a => decide (a.passes.getD 0 = 0)) ∧
    (statsFor tests).passes + (statsFor tests).failures + (statsFor tests).flaky =
        tests.length ∧
    (rollupModule name tests).flaky = (statsFor tests).flaky ∧
    (rollupModule name tests).passes = (statsFor tests).passes ∧
    (rollupModule name tests).failures = (statsFor tests).failures ∧
    (rollupModule name tests).passes + (rollupModule name tests).failures +
        (rollupModule name tests).flaky = (rollupModule name tests).tests.length := by
  obtain ⟨h1, h2, h3, -⟩ := statsStep_fold tests {}
  have e1 : (statsFor tests).flaky =
      tests.countP (fun a => decide (0 < a.passes.getD 0 ∧ 0 < a.failures.getD 0)) := by
    unfold statsFor
    rw [h1, Nat.zero_add]
    apply List.countP_congr
    intro a _
    simp [countGtZero_eq]
  have e2 : (statsFor tests).passes =
      tests.countP (fun a => decide (0 < a.passes.getD 0 ∧ a.failures.getD 0 = 0)) := by
    unfold statsFor
    rw [h2, Nat.zero_add]
    apply List.countP_congr
    intro a _
    simp [countGtZero_eq]
  have e3 : (statsFor tests).failures =
      tests.countP (fun a => decide (a.passes.getD 0 = 0)) := by
    unfold statsFor
    rw [h3, Nat.zero_add]
    apply List.countP_congr
    intro a _
    simp [countGtZero_eq]
  have e4 : (statsFor tests).passes + (statsFor tests).failures + (statsFor tests).flaky =
      tests.length := by
    rw [e1, e2, e3]
    exact countP_classes tests
  exact ⟨e1, e2, e3, e4, rfl, rfl, rfl, e4⟩

/-- C9, counterexample: on members with `avg` 6755399441055745, 0 and 0 the
quotient 2251799813685248.33 is not a double; the nearest one is
2251799813685248.5, which `Math.round` takes to 2251799813685249, while the
exact quotient rounds to 2251799813685248. -/
theorem rollupModule_rounds_double :
    (rollupModule "m"
        [{ avg := some (JSNum.int 6755399441055745) }, { avg := some (JSNum.int 0) },
         { avg := some (JSNum.int 0) }]).duration = JSNum.int 6755399441055745 ∧
    (rollupModule "m"
        [{ avg := some (JSNum.int 6755399441055745) }, { avg := some (JSNum.int 0) },
         { avg := some (JSNum.int 0) }]).avg = JSNum.int 2251799813685249 ∧
    (2 * 6755399441055745 + 3) / (2 * 3) = (2251799813685248 : Int) ∧
    (rollupModule "m"
        [{ avg := some (JSNum.int 6755399441055745) }, { avg := some (JSNum.int 0) },
         { avg := some (JSNum.int 0) }]).avg ≠
      JSNum.int ((2 * 6755399441055745 + 3) / (2 * 3)) := by
  decide

/-- C9, amended: for a non-empty list of members whose `avg` values are the natural
numbers `ns`, of sum below `2^52`, `rollupModule` returns `duration` = the sum
of `ns`, `avg` = that sum divided by the number of members and rounded to the
nearest integer (halves up), `module` = the given name and `tests` = the given
list. -/
theorem rollupModule_spec (name : String) (tests : List Assertion) (ns : List Nat)
    (hne : tests ≠ [])
    (havg : tests.map (fun a => a.avg) = ns.map (fun (n : Nat) => some (JSNum.int (n : Int))))
    (hsum : ns.sum < twoPow52) :
    (rollupModule name tests).duration = JSNum.int ((ns.sum : Nat) : Int) ∧
    (rollupModule name tests).avg =
      JSNum.int ((2 * ((ns.sum : Nat) : Int) + ((tests.length : Nat) : Int)) /
        (2 * ((tests.length : Nat) : Int))) ∧
    (rollupModule name tests).module = name ∧
    (rollupModule name tests).tests = tests := by
  have h53 : 0 + ns.sum < twoPow53 := by
    simp only [twoPow52, twoPow53] at *
    omega
  have hd : (statsFor tests).duration = JSNum.int ((ns.sum : Nat) : Int) := by
    have := foldl_addField_int ns 0 h53
    rw [statsFor_duration, havg]
    simpa using this
  have hlen : 0 < tests.length := List.length_pos.mpr hne
  refine ⟨hd, ?_, rfl, rfl⟩
  show JSNum.roundDiv (statsFor tests).duration tests.length = _
  rw [hd, roundDiv_int _ _ hsum hlen]

/-- C9, amended, at members with `avg` 120 and 340: `duration` 460 and `avg` 230. -/
theorem rollupModule_spec_witness :
    (rollupModule "Suite A"
        [{ avg := some (JSNum.int 120) }, { avg := some (JSNum.int 340) }]).duration =
      JSNum.int 460 ∧
    (rollupModule "Suite A"
        [{ avg := some (JSNum.int 120) }, { avg := some (JSNum.int 340) }]).avg =
      JSNum.int 230 := by
  have h := rollupModule_spec "Suite A"
    [{ avg := some (JSNum.int 120) }, { avg := some (JSNum.int 340) }] [120, 340]
    (by decide) (by decide) (by decide)
  exact ⟨h.1, h.2.1.trans (by decide)⟩

/-! ## First occurrences -/

theorem mem_firstOccurrences {α : Type} [DecidableEq α] (l : List α) (x : α) :
    x ∈ firstOccurrences l ↔ x ∈ l := by
  induction l with
  | nil => simp [firstOccurrences]
  | cons a l ih =>
    simp only [firstOccurrences, List.mem_cons, List.mem_filter, ih, decide_eq_true_eq]
    by_cases h : x = a <;> simp [h]

theorem nodup_firstOccurrences {α : Type} [DecidableEq α] (l : List α) :
    (firstOccurrences l).Nodup := by
  induction l with
  | nil => simp [firstOccurrences]
  | cons a l ih =>
    simp only [firstOccurrences, List.nodup_cons, List.mem_filter, decide_eq_true_eq]
    exact ⟨fun h => h.2 rfl, ih.filter _⟩

theorem firstOccurrences_append_singleton {α : Type} [DecidableEq α] (l : List α) (x : α) :
    firstOccurrences (l ++ [x]) =
      if x ∈ l then firstOccurrences l else firstOccurrences l ++ [x] := by
  induction l with
  | nil => simp [firstOccurrences]
  | cons a l ih =>
    rw [List.cons_append, firstOccurrences, ih, firstOccurrences]
    by_cases hxa : x = a
    · subst hxa
      by_cases hxl : x ∈ l <;> simp [hxl, List.filter_append]
    · by_cases hxl : x ∈ l <;> simp [hxl, hxa, List.filter_append]

theorem firstOccurrences_map_of_injOn {α β : Type} [DecidableEq α] [DecidableEq β]
    (f : α → β) (l : List α) (hinj : ∀ a ∈ l, ∀ b ∈ l, f a = f b → a = b) :
    firstOccurrences (l.map f) = (firstOccurrences l).map f := by
  induction l with
  | nil => simp [firstOccurrences]
  | cons a l ih =>
    have ih' := ih (fun x hx y hy => hinj x (List.mem_cons_of_mem _ hx) y (List.mem_cons_of_mem _ hy))
    simp only [List.map_cons, firstOccurrences, ih', List.filter_map]
    congr 2
    apply List.filter_congr
    intro x hx
    have hxl : x ∈ l := (mem_firstOccurrences l x).mp hx
    simp only [Function.comp, decide_eq_decide]
    constructor
    · intro h e; exact h (by rw [e])
    · intro h e
      exact h (hinj x (List.mem_cons_of_mem _ hxl) a (List.mem_cons_self _ _) e)

/-! ## The object built by `groupBy` -/

theorem groupInsert_map {α : Type} (k : String) (x : α) (g : String → List α)
    (ks : List String) (hnd : ks.Nodup) :
    groupInsert k x (ks.map (fun j => (j, g j))) =
      if k ∈ ks then ks.map (fun j => (j, if j = k then g j ++ [x] else g j))
      else ks.map (fun j => (j, g j)) ++ [(k, [x])] := by
  induction ks with
  | nil => simp [groupInsert]
  | cons j ks ih =>
    have hj : j ∉ ks := (List.nodup_cons.mp hnd).1
    have ih' := ih (List.nodup_cons.mp hnd).2
    simp only [List.map_cons, groupInsert]
    by_cases hjk : j = k
    · subst hjk
      simp only [if_true, List.mem_cons, true_or]
      congr 1
      apply List.map_congr_left
      intro i hi
      have : i ≠ j := fun e => hj (e ▸ hi)
      simp [this]
    · have hkj : ¬ k = j := fun e => hjk e.symm
      simp only [hjk, if_false, ih', List.mem_cons, hkj, false_or]
      by_cases hk : k ∈ ks <;> simp [hk]

/-- The object built by `groupBy`, in insertion order: one property per distinct
key, in order of first appearance, holding the elements with that key in their
original order. -/
theorem groupByInsertion_eq {α : Type} (key : α → String) (xs : List α) :
    groupByInsertion key xs =
      (firstOccurrences (xs.map key)).map
        (fun k => (k, xs.filter (fun a => decide (key a = k)))) := by
  induction xs using List.reverseRecOn with
  | nil => simp [groupByInsertion, firstOccurrences]
  | append_singleton xs x ih =>
    unfold groupByInsertion at ih ⊢
    rw [List.foldl_append, List.foldl_cons, List.foldl_nil, ih,
      groupInsert_map _ _ _ _ (nodup_firstOccurrences _), List.map_append, List.map_singleton,
      firstOccurrences_append_singleton]
    by_cases hk : key x ∈ xs.map key
    · have hk' : key x ∈ firstOccurrences (xs.map key) := (mem_firstOccurrences _ _).mpr hk
      simp only [hk, hk', if_true]
      apply List.map_congr_left
      intro j _
      by_cases hj : j = key x
      · simp [hj, List.filter_append]
      · have : ¬ key x = j := fun e => hj e.symm
        simp [hj, this, List.filter_append]
    · have hk' : key x ∉ firstOccurrences (xs.map key) :=
        fun h => hk ((mem_firstOccurrences _ _).mp h)
      simp only [hk, hk', if_false, List.map_append, List.map_singleton]
      congr 1
      · apply List.map_congr_left
        intro j hj
        have : ¬ key x = j := fun e => hk' (e ▸ hj)
        simp [List.filter_append, this]
      · have : xs.filter (fun a => decide (key a = key x)) = [] := by
          rw [List.filter_eq_nil_iff]
          intro a ha
          simp only [decide_eq_true_eq]
          intro e
          exact hk (List.mem_map.mpr ⟨a, ha, e⟩)
        simp [List.filter_append, this]

theorem ownPropertyOrder_eq_self {β : Type} (props : List (String × β))
    (h : ∀ p ∈ props, isArrayIndex p.1 = false) : ownPropertyOrder props = props := by
  unfold ownPropertyOrder
  have h1 : props.filter (fun p => isArrayIndex p.1) = [] := by
    rw [List.filter_eq_nil_iff]
    intro p hp
    simp [h p hp]
  have h2 : props.filter (fun p => !isArrayIndex p.1) = props := by
    rw [List.filter_eq_self]
    intro p hp
    simp [h p hp]
  rw [h1, h2]
  simp

theorem mem_ownPropertyOrder {β : Type} (props : List (String × β)) (p : String × β) :
    p ∈ ownPropertyOrder props ↔ p ∈ props := by
  unfold ownPropertyOrder
  rw [List.mem_append, List.mem_insertionSort, List.mem_filter, List.mem_filter]
  cases h : isArrayIndex p.1 <;> simp [h]

theorem mem_groupBy {α : Type} (key : α → String) (xs : List α) (p : String × List α) :
    p ∈ groupBy key xs ↔
      p.1 ∈ xs.map key ∧ p.2 = xs.filter (fun a => decide (key a = p.1)) := by
  unfold groupBy
  rw [mem_ownPropertyOrder, groupByInsertion_eq, List.mem_map]
  constructor
  · rintro ⟨k, hk, rfl⟩
    exact ⟨(mem_firstOccurrences _ _).mp hk, rfl⟩
  · rintro ⟨h1, h2⟩
    refine ⟨p.1, (mem_firstOccurrences _ _).mpr h1, ?_⟩
    rw [← h2]

/-! ## What `addMetadata` leaves on an assertion -/

theorem decorate_cases (a : RawAssertion) :
    (matchLabel a.name = none ∧ decorate a = Assertion.ofRaw a) ∨
    ∃ m, matchLabel a.name = some m ∧ decorate a =
      { name := some a.name, ok := some a.ok, browser := some m.browser,
        module := some m.module, test := some m.test,
        duration := some (JSNum.ofInt (m.duration : Int)),
        id := some (m.module ++ ": " ++ m.test) } := by
  unfold decorate
  cases h : matchLabel a.name with
  | none => exact Or.inl ⟨rfl, rfl⟩
  | some m => exact Or.inr ⟨m, rfl, rfl⟩

theorem decorate_unmerged (a : RawAssertion) :
    (decorate a).passes = none ∧ (decorate a).failures = none ∧ (decorate a).avg = none ∧
    (decorate a).durations = none ∧ (decorate a).ok = some a.ok ∧
    (decorate a).name = some a.name := by
  rcases decorate_cases a with ⟨-, h⟩ | ⟨m, -, h⟩ <;> rw [h] <;> simp [Assertion.ofRaw]

theorem decorate_isLabelId (a : RawAssertion) : IsLabelId (decorate a).id := by
  intro s hs
  rcases decorate_cases a with ⟨-, h⟩ | ⟨m, -, h⟩
  · rw [h] at hs; simp [Assertion.ofRaw] at hs
  · rw [h] at hs
    simp only [Option.some.injEq] at hs
    subst hs
    simp [String.data_append]

theorem decorate_module_none_iff (a : RawAssertion) :
    (decorate a).module = none ↔ labelMatches a = false := by
  unfold labelMatches
  rcases decorate_cases a with ⟨hm, h⟩ | ⟨m, hm, h⟩ <;> rw [h, hm] <;> simp [Assertion.ofRaw]

theorem decorate_id_none_iff (a : RawAssertion) :
    (decorate a).id = none ↔ labelMatches a = false := by
  unfold labelMatches
  rcases decorate_cases a with ⟨hm, h⟩ | ⟨m, hm, h⟩ <;> rw [h, hm] <;> simp [Assertion.ofRaw]

theorem isArrayIndex_of_colon (s : String) (h : ':' ∈ s.data) : isArrayIndex s = false := by
  unfold isArrayIndex
  cases hd : s.data with
  | nil => rfl
  | cons c cs =>
    have hall : (c :: cs).all Char.isDigit = false := by
      rw [List.all_eq_false]
      refine ⟨':', hd ▸ h, by decide⟩
    simp only [hall, Bool.false_and]

theorem isArrayIndex_propertyKey (o : Option String) (h : IsLabelId o) :
    isArrayIndex (propertyKey o) = false := by
  cases o with
  | none => decide
  | some s => exact isArrayIndex_of_colon s (h s rfl)

theorem propertyKey_inj (o o' : Option String) (h : IsLabelId o) (h' : IsLabelId o')
    (e : propertyKey o = propertyKey o') : o = o' := by
  have hu : ¬ ':' ∈ "undefined".data := by decide
  cases o with
  | none =>
    cases o' with
    | none => rfl
    | some s' =>
      have := h' s' rfl
      simp only [propertyKey] at e
      rw [← e] at this
      exact absurd this hu
  | some s =>
    cases o' with
    | none =>
      have := h s rfl
      simp only [propertyKey] at e
      rw [e] at this
      exact absurd this hu
    | some s' => simp only [propertyKey] at e; rw [e]

/-! ## The flattened sequence -/

theorem flattenRuns_cons {α : Type} (run : List (Frame α)) (runs : List (List (Frame α))) :
    flattenRuns (run :: runs) = (run.map (fun t => t.asserts)).flatten ++ flattenRuns runs := by
  simp [flattenRuns]

theorem flattenRuns_addMetadata (json : List (List (Frame RawAssertion))) :
    flattenRuns (json.map addMetadata) = (flattenRuns json).map decorate := by
  induction json with
  | nil => simp [flattenRuns]
  | cons run runs ih =>
    rw [List.map_cons, flattenRuns_cons, flattenRuns_cons, ih, List.map_append]
    congr 1
    unfold addMetadata
    induction run with
    | nil => simp
    | cons t ts iht =>
      rw [List.map_cons, List.map_cons, List.map_cons, List.flatten, List.flatten,
        List.map_append, iht]

/-! ## The `all` sequence of several runs -/

theorem aggregateTimings_all_many (tapJson : List (List (Frame Assertion)))
    (h : 1 < tapJson.length) :
    (aggregateTimings tapJson).all =
      (groupBy (fun a => propertyKey a.id) (flattenRuns tapJson)).map
        (fun p => mergeAssertions p.2) := by
  simp [aggregateTimings, h]

theorem aggregateTimings_all_single (tapJson : List (List (Frame Assertion)))
    (h : tapJson.length ≤ 1) :
    (aggregateTimings tapJson).all = flattenRuns tapJson := by
  have : ¬ 1 < tapJson.length := by omega
  simp [aggregateTimings, this]

theorem aggregateTimings_modules (tapJson : List (List (Frame Assertion))) :
    (aggregateTimings tapJson).modules =
      (groupBy (fun a => propertyKey a.module) (aggregateTimings tapJson).all).map
        (fun p => rollupModule p.1 p.2) := by
  simp [aggregateTimings]

theorem groupBy_of_labelIds (flat : List Assertion) (hlab : ∀ a ∈ flat, IsLabelId a.id) :
    groupBy (fun a => propertyKey a.id) flat =
      (firstOccurrences (flat.map (fun a => a.id))).map
        (fun o => (propertyKey o, flat.filter (fun a => decide (a.id = o)))) := by
  unfold groupBy
  rw [ownPropertyOrder_eq_self, groupByInsertion_eq]
  · have hmap : flat.map (fun a => propertyKey a.id) =
        (flat.map (fun a => a.id)).map propertyKey := by simp
    have hmem : ∀ o ∈ flat.map (fun a => a.id), IsLabelId o := by
      intro o ho
      obtain ⟨a, ha, rfl⟩ := List.mem_map.mp ho
      exact hlab a ha
    rw [hmap, firstOccurrences_map_of_injOn propertyKey _
      (fun o ho o' ho' e => propertyKey_inj o o' (hmem o ho) (hmem o' ho') e), List.map_map]
    apply List.map_congr_left
    intro o ho
    have ho' : IsLabelId o := hmem o ((mem_firstOccurrences _ _).mp ho)
    simp only [Function.comp, Prod.mk.injEq, true_and]
    apply List.filter_congr
    intro a ha
    simp only [decide_eq_decide]
    exact ⟨fun e => propertyKey_inj _ _ (hlab a ha) ho' e, fun e => by rw [e]⟩
  · intro p hp
    rw [groupByInsertion_eq] at hp
    obtain ⟨k, hk, rfl⟩ := List.mem_map.mp hp
    obtain ⟨a, ha, rfl⟩ := List.mem_map.mp ((mem_firstOccurrences _ _).mp hk)
    exact isArrayIndex_propertyKey _ (hlab a ha)

theorem labelIds_of_addMetadata (json : List (List (Frame RawAssertion))) :
    ∀ a ∈ flattenRuns (json.map addMetadata), IsLabelId a.id := by
  intro a ha
  rw [flattenRuns_addMetadata] at ha
  obtain ⟨x, -, rfl⟩ := List.mem_map.mp ha
  exact decorate_isLabelId x

/-- With more than one run, `all` holds, for each distinct `id` in order of first
appearance, the merge of the assertions carrying that `id`. -/
theorem audit_all_eq (json : List (List (Frame RawAssertion))) (h : 1 < json.length) :
    (audit json).all =
      (firstOccurrences ((flattenRuns (json.map addMetadata)).map (fun a => a.id))).map
        (fun o => mergeAssertions
          ((flattenRuns (json.map addMetadata)).filter (fun a => decide (a.id = o)))) := by
  unfold audit
  rw [aggregateTimings_all_many _ (by simpa using h),
    groupBy_of_labelIds _ (labelIds_of_addMetadata json), List.map_map]
  rfl

/-! ## `mergeAssertions` on a group -/

theorem head_filter_of_mem {α : Type} (p : α → Bool) (xs : List α) (a : α) (ha : a ∈ xs)
    (hp : p a = true) : ∃ a0, (xs.filter p).head? = some a0 ∧ a0 ∈ xs ∧ p a0 = true := by
  cases hf : xs.filter p with
  | nil =>
    have : a ∈ xs.filter p := List.mem_filter.mpr ⟨ha, hp⟩
    rw [hf] at this
    exact absurd this (List.not_mem_nil a)
  | cons a0 l =>
    have : a0 ∈ xs.filter p := by rw [hf]; exact List.mem_cons_self _ _
    exact ⟨a0, rfl, (List.mem_filter.mp this).1, (List.mem_filter.mp this).2⟩

theorem mergeAssertions_of_head (l : List Assertion) (a0 : Assertion)
    (hhead : l.head? = some a0) (hp : a0.passes = none) (hf : a0.failures = none)
    (ha : a0.avg = none) :
    (mergeAssertions l).id = a0.id ∧ (mergeAssertions l).module = a0.module ∧
    (mergeAssertions l).test = a0.test ∧ (mergeAssertions l).browser = a0.browser ∧
    (mergeAssertions l).name = a0.id ∧
    (mergeAssertions l).passes = some (l.countP (fun a => decide (a.ok = some true))) ∧
    (mergeAssertions l).failures =
      some (l.length - l.countP (fun a => decide (a.ok = some true))) ∧
    (mergeAssertions l).avg = some (JSNum.roundDiv
      (((l.filter (fun a => decide (a.ok = some true))).map (fun a => a.duration)).foldl
        JSNum.addField (JSNum.int 0))
      (l.countP (fun a => decide (a.ok = some true)))) ∧
    (mergeAssertions l).durations = some (l.map (fun a => a.duration)) := by
  simp only [mergeAssertions, hhead, Option.getD_some, hp, hf, ha, Option.orElse,
    List.countP_eq_length_filter, List.foldl_map, and_self]

theorem countP_ok_split (l : List Assertion) (p : Assertion → Prop) [DecidablePred p]
    (hok : ∀ a ∈ l, ∃ b, a.ok = some b) :
    l.countP (fun a => decide (p a ∧ a.ok = some true)) +
      l.countP (fun a => decide (p a ∧ a.ok = some false)) =
    l.countP (fun a => decide (p a)) := by
  induction l with
  | nil => simp
  | cons a l ih =>
    have ih' := ih (fun x hx => hok x (List.mem_cons_of_mem _ hx))
    obtain ⟨b, hb⟩ := hok a (List.mem_cons_self _ _)
    simp only [List.countP_cons]
    have key :
        (if decide (p a ∧ a.ok = some true) = true then 1 else 0) +
          (if decide (p a ∧ a.ok = some false) = true then 1 else 0) =
        (if decide (p a) = true then 1 else 0) := by
      simp only [decide_eq_true_eq, hb]
      by_cases hpa : p a <;> cases b <;> simp [hpa]
    omega

theorem ok_of_addMetadata (json : List (List (Frame RawAssertion))) :
    ∀ a ∈ flattenRuns (json.map addMetadata), ∃ b, a.ok = some b := by
  intro a ha
  rw [flattenRuns_addMetadata] at ha
  obtain ⟨x, -, rfl⟩ := List.mem_map.mp ha
  exact ⟨x.ok, (decorate_unmerged x).2.2.2.2.1⟩

/-- Every record of `all`, with more than one run, is the merge of the group of
one assertion `a0` of the flattened sequence, which is the first of its group. -/
theorem audit_all_mem (json : List (List (Frame RawAssertion))) (h : 1 < json.length)
    (r : Assertion) (hr : r ∈ (audit json).all) :
    ∃ a0 x, a0 = decorate x ∧ a0 ∈ flattenRuns (json.map addMetadata) ∧
      ((flattenRuns (json.map addMetadata)).filter (fun a => decide (a.id = a0.id))).head? =
        some a0 ∧
      r = mergeAssertions
        ((flattenRuns (json.map addMetadata)).filter (fun a => decide (a.id = a0.id))) := by
  rw [audit_all_eq json h] at hr
  obtain ⟨o, ho, rfl⟩ := List.mem_map.mp hr
  obtain ⟨a, ha, rfl⟩ := List.mem_map.mp ((mem_firstOccurrences _ _).mp ho)
  obtain ⟨a0, hhead, hmem, hid⟩ := head_filter_of_mem (fun b => decide (b.id = a.id))
    (flattenRuns (json.map addMetadata)) a ha (by simp)
  have hid' : a0.id = a.id := by simpa using hid
  have hmem' := hmem
  rw [flattenRuns_addMetadata] at hmem'
  obtain ⟨x, -, hx⟩ := List.mem_map.mp hmem'
  refine ⟨a0, x, hx.symm, hmem, ?_, ?_⟩
  · rw [hid']; exact hhead
  · rw [hid']

/-- C2: with more than one run, the merged record of an id has `passes` = the
number of occurrences of that id in the flattened runs with `ok = true`,
`failures` = the number with `ok = false`, and the two add up to the number of
occurrences of the id. -/
theorem mergeAssertions_counts (json : List (List (Frame RawAssertion)))
    (h : 1 < json.length) (r : Assertion) (hr : r ∈ (audit json).all) :
    r.passes = some ((flattenRuns (json.map addMetadata)).countP
      (fun a => decide (a.id = r.id ∧ a.ok = some true))) ∧
    r.failures = some ((flattenRuns (json.map addMetadata)).countP
      (fun a => decide (a.id = r.id ∧ a.ok = some false))) ∧
    (flattenRuns (json.map addMetadata)).countP
        (fun a => decide (a.id = r.id ∧ a.ok = some true)) +
      (flattenRuns (json.map addMetadata)).countP
        (fun a => decide (a.id = r.id ∧ a.ok = some false)) =
    (flattenRuns (json.map addMetadata)).countP (fun a => decide (a.id = r.id)) := by
  obtain ⟨a0, x, hx, -, hhead, rfl⟩ := audit_all_mem json h r hr
  have hun := decorate_unmerged x
  rw [← hx] at hun
  obtain ⟨e1, -, -, -, -, e6, e7, -, -⟩ :=
    mergeAssertions_of_head _ a0 hhead hun.1 hun.2.1 hun.2.2.1
  have hsplit := countP_ok_split (flattenRuns (json.map addMetadata))
    (fun a => a.id = a0.id) (ok_of_addMetadata json)
  have hc1 : ((flattenRuns (json.map addMetadata)).filter
        (fun a => decide (a.id = a0.id))).countP (fun a => decide (a.ok = some true)) =
      (flattenRuns (json.map addMetadata)).countP
        (fun a => decide (a.id = a0.id ∧ a.ok = some true)) := by
    rw [List.countP_filter]
    apply List.countP_congr
    intro a _
    simp [and_comm]
  have hc2 : ((flattenRuns (json.map addMetadata)).filter
        (fun a => decide (a.id = a0.id))).length =
      (flattenRuns (json.map addMetadata)).countP (fun a => decide (a.id = a0.id)) := by
    rw [List.countP_eq_length_filter]
  rw [e1, e6, e7, hc1, hc2]
  refine ⟨rfl, ?_, hsplit⟩
  congr 1
  have hsplit' := hsplit
  simp only at hsplit'
  omega

/-- C2 on scenario B: the test passes in run 1 and fails in run 2, so its merged
record has `passes = 1` and `failures = 1`. -/
theorem mergeAssertions_counts_witness :
    1 < scenarioB.length ∧
    (∀ r ∈ (audit scenarioB).all,
      r.passes = some ((flattenRuns (scenarioB.map addMetadata)).countP
        (fun a => decide (a.id = r.id ∧ a.ok = some true))) ∧
      r.failures = some ((flattenRuns (scenarioB.map addMetadata)).countP
        (fun a => decide (a.id = r.id ∧ a.ok = some false)))) ∧
    (audit scenarioB).all.map (fun r => (r.id, r.passes, r.failures)) =
      [(some "Suite A: adds numbers", some 1, some 1)] :=
  ⟨by decide,
   fun r hr => ⟨(mergeAssertions_counts scenarioB (by decide) r hr).1,
                (mergeAssertions_counts scenarioB (by decide) r hr).2.1⟩,
   by decide⟩

theorem mergeAssertions_avg_of_head (l : List Assertion) (a0 : Assertion)
    (hhead : l.head? = some a0) (ha : a0.avg = none) :
    (mergeAssertions l).avg = some (JSNum.roundDiv
      (((l.filter (fun a => decide (a.ok = some true))).map (fun a => a.duration)).foldl
        JSNum.addField (JSNum.int 0))
      (l.filter (fun a => decide (a.ok = some true))).length) := by
  simp only [mergeAssertions, hhead, Option.getD_some, ha, Option.orElse, List.foldl_map]

/-- C3, counterexample: three passing entries of 6755399441055745, 0 and 0 ms
have the mean 2251799813685248.33; its nearest double is 2251799813685248.5,
which `Math.round` takes to 2251799813685249, not to 2251799813685248. -/
theorem mergeAssertions_avg_rounds_double :
    (mergeAssertions
      [{ ok := some true, duration := some (JSNum.int 6755399441055745) },
       { ok := some true, duration := some (JSNum.int 0) },
       { ok := some true, duration := some (JSNum.int 0) }]).avg =
      some (JSNum.int 2251799813685249) ∧
    (2 * 6755399441055745 + 3) / (2 * 3) = (2251799813685248 : Int) ∧
    (mergeAssertions
      [{ ok := some true, duration := some (JSNum.int 6755399441055745) },
       { ok := some true, duration := some (JSNum.int 0) },
       { ok := some true, duration := some (JSNum.int 0) }]).avg ≠
      some (JSNum.int ((2 * 6755399441055745 + 3) / (2 * 3))) := by
  decide

/-- C3, amended: in a group of assertions (none carrying an `avg` of its own) whose
passing entries report the natural numbers `ds` as durations, of sum below
`2^52`, with at least one passing entry, `mergeAssertions` sets `avg` to the
mean of `ds` rounded to the nearest integer, halves up:
`floor((2 * S + p) / (2 * p))` with `S` the sum and `p` the number of passing
entries. The failing entries do not occur in the value. -/
theorem mergeAssertions_avg (assertions : List Assertion) (ds : List Nat)
    (hfresh : ∀ a ∈ assertions, a.avg = none)
    (hds : (assertions.filter (fun a => decide (a.ok = some true))).map (fun a => a.duration) =
      ds.map (fun (n : Nat) => some (JSNum.int (n : Int))))
    (hpass : ds ≠ [])
    (hsum : ds.sum < twoPow52) :
    (mergeAssertions assertions).avg =
      some (JSNum.int ((2 * ((ds.sum : Nat) : Int) + ((ds.length : Nat) : Int)) /
        (2 * ((ds.length : Nat) : Int)))) := by
  have hlen : (assertions.filter (fun a => decide (a.ok = some true))).length = ds.length := by
    have := congrArg List.length hds
    simpa using this
  have hpos : 0 < ds.length := List.length_pos.mpr hpass
  have h53 : 0 + ds.sum < twoPow53 := by
    simp only [twoPow52, twoPow53] at *
    omega
  have hfold := foldl_addField_int ds 0 h53
  simp only [Nat.cast_zero, Nat.zero_add] at hfold
  cases hl : assertions with
  | nil =>
    rw [hl] at hlen
    simp at hlen
    omega
  | cons a0 rest =>
    have ha0 : a0.avg = none := hfresh a0 (by rw [hl]; exact List.mem_cons_self _ _)
    rw [← hl, mergeAssertions_avg_of_head assertions a0 (by rw [hl]; rfl) ha0, hds, hlen,
      hfold, roundDiv_int _ _ hsum hpos]

/-- C3, amended, on the entries (ok, 150 ms) and (not ok, 0 ms): `avg = 150`. -/
theorem mergeAssertions_avg_witness :
    (mergeAssertions
      [{ ok := some true, duration := some (JSNum.int 150) },
       { ok := some false, duration := some (JSNum.int 0) }]).avg = some (JSNum.int 150) :=
  (mergeAssertions_avg
    [{ ok := some true, duration := some (JSNum.int 150) },
     { ok := some false, duration := some (JSNum.int 0) }] [150]
    (by decide) (by decide) (by decide) (by decide)).trans (by decide)

/-- C4: with more than one run, the merged record of an id has `durations` = the
reported durations of all the occurrences of that id, passing or failing, in
the order of the flattened runs (run after run, and inside a run frame after
frame and assertion after assertion); the list has `passes + failures` entries. -/
theorem mergeAssertions_durations (json : List (List (Frame RawAssertion)))
    (h : 1 < json.length) (r : Assertion) (hr : r ∈ (audit json).all) :
    r.durations = some (((flattenRuns (json.map addMetadata)).filter
      (fun a => decide (a.id = r.id))).map (fun a => a.duration)) ∧
    ∃ p f, r.passes = some p ∧ r.failures = some f ∧
      (((flattenRuns (json.map addMetadata)).filter
        (fun a => decide (a.id = r.id))).map (fun a => a.duration)).length = p + f := by
  obtain ⟨a0, x, hx, -, hhead, rfl⟩ := audit_all_mem json h r hr
  have hun := decorate_unmerged x
  rw [← hx] at hun
  obtain ⟨e1, -, -, -, -, e6, e7, -, e9⟩ :=
    mergeAssertions_of_head _ a0 hhead hun.1 hun.2.1 hun.2.2.1
  rw [e1]
  refine ⟨e9, _, _, e6, e7, ?_⟩
  have := List.countP_le_length (fun a => decide (a.ok = some true))
    (l := (flattenRuns (json.map addMetadata)).filter (fun a => decide (a.id = a0.id)))
  rw [List.length_map]
  omega

/-- C4 on scenario B: 150 ms in run 1 and 0 ms in run 2 give `durations = [150, 0]`. -/
theorem mergeAssertions_durations_witness :
    1 < scenarioB.length ∧
    (∀ r ∈ (audit scenarioB).all,
      r.durations = some (((flattenRuns (scenarioB.map addMetadata)).filter
        (fun a => decide (a.id = r.id))).map (fun a => a.duration))) ∧
    (audit scenarioB).all.map (fun r => r.durations) =
      [some [some (JSNum.int 150), some (JSNum.int 0)]] :=
  ⟨by decide, fun r hr => (mergeAssertions_durations scenarioB (by decide) r hr).1, by decide⟩

/-- C5: with more than one run, the ids of `all` are the distinct ids of the
flattened runs in order of first appearance (an assertion without metadata
counting as the id `undefined`); so they are pairwise distinct and every
observed id has its record. -/
theorem audit_all_ids (json : List (List (Frame RawAssertion))) (h : 1 < json.length) :
    (audit json).all.map (fun r => r.id) =
      firstOccurrences ((flattenRuns (json.map addMetadata)).map (fun a => a.id)) ∧
    ((audit json).all.map (fun r => r.id)).Nodup ∧
    ∀ a ∈ flattenRuns (json.map addMetadata), a.id ∈ (audit json).all.map (fun r => r.id) := by
  have key : (audit json).all.map (fun r => r.id) =
      firstOccurrences ((flattenRuns (json.map addMetadata)).map (fun a => a.id)) := by
    rw [audit_all_eq json h, List.map_map]
    conv_rhs => rw [← List.map_id (firstOccurrences _)]
    apply List.map_congr_left
    intro o ho
    obtain ⟨a, ha, rfl⟩ := List.mem_map.mp ((mem_firstOccurrences _ _).mp ho)
    obtain ⟨a0, hhead, hmem, hid⟩ := head_filter_of_mem (fun b => decide (b.id = a.id))
      (flattenRuns (json.map addMetadata)) a ha (by simp)
    have hid' : a0.id = a.id := by simpa using hid
    have hmem' := hmem
    rw [flattenRuns_addMetadata] at hmem'
    obtain ⟨x, -, hx⟩ := List.mem_map.mp hmem'
    have hun := decorate_unmerged x
    rw [hx] at hun
    have := (mergeAssertions_of_head _ a0 hhead hun.1 hun.2.1 hun.2.2.1).1
    simp only [Function.comp, id]
    rw [this, hid']
  refine ⟨key, ?_, ?_⟩
  · rw [key]; exact nodup_firstOccurrences _
  · intro a ha
    rw [key, mem_firstOccurrences]
    exact List.mem_map.mpr ⟨a, ha, rfl⟩

/-- C5 on scenario B: both runs report the same id, `all` has one record for it. -/
theorem audit_all_ids_witness :
    1 < scenarioB.length ∧
    (audit scenarioB).all.map (fun r => r.id) =
      firstOccurrences ((flattenRuns (scenarioB.map addMetadata)).map (fun a => a.id)) ∧
    (audit scenarioB).all.map (fun r => r.id) = [some "Suite A: adds numbers"] :=
  ⟨by decide, (audit_all_ids scenarioB (by decide)).1, by decide⟩

/-! ## Totals over `all` -/

theorem sum_group_lengths {α β : Type} [DecidableEq β] (f : α → β) (l : List α) :
    ((firstOccurrences (l.map f)).map
      (fun k => (l.filter (fun a => decide (f a = k))).length)).sum = l.length := by
  have hperm : (firstOccurrences (l.map f)).Perm (l.map f).dedup := by
    rw [List.perm_ext_iff_of_nodup (nodup_firstOccurrences _) (List.nodup_dedup _)]
    intro k
    rw [mem_firstOccurrences, List.mem_dedup]
  rw [(hperm.map _).sum_eq]
  have hcount : ∀ k, (l.filter (fun a => decide (f a = k))).length = (l.map f).count k := by
    intro k
    rw [List.count_eq_countP, List.countP_map, List.countP_eq_length_filter]
    congr 1
  simp only [hcount]
  have := List.sum_map_count_dedup_eq_length (l.map f)
  simpa using this

theorem occurrenceTotal_map {ι : Type} (g : ι → Assertion) (n : ι → Nat) (os : List ι)
    (h : ∀ o ∈ os, ∃ p f, (g o).passes = some p ∧ (g o).failures = some f ∧ p + f = n o) :
    occurrenceTotal (os.map g) = some ((os.map n).sum) := by
  induction os with
  | nil => simp [occurrenceTotal]
  | cons o os ih =>
    obtain ⟨p, f, hp, hf, hn⟩ := h o (List.mem_cons_self _ _)
    have ih' := ih (fun o' ho' => h o' (List.mem_cons_of_mem _ ho'))
    simp only [List.map_cons, occurrenceTotal, hp, hf, ih', List.sum_cons, hn]

/-- C6, counterexample: two runs that each report one assertion without
metadata give one record with `passes + failures = 2`, although no assertion
matches the label pattern. -/
theorem occurrenceTotal_counts_unmatched :
    1 ≤ scenarioC2.length ∧
    occurrenceTotal (audit scenarioC2).all = some 2 ∧
    (flattenRuns scenarioC2).countP labelMatches = 0 ∧
    occurrenceTotal (audit scenarioC2).all ≠
      some ((flattenRuns scenarioC2).countP labelMatches) := by
  decide

/-- C6, amended: with more than one run, the sum over the records of `all` of
`passes + failures` is the number of assertions of all the runs: the ones whose
label matches the pattern plus the ones whose label does not. -/
theorem occurrenceTotal_audit (json : List (List (Frame RawAssertion)))
    (h : 1 < json.length) :
    occurrenceTotal (audit json).all =
      some ((flattenRuns json).countP labelMatches +
        (flattenRuns json).countP (fun a => !labelMatches a)) := by
  have hlen : (flattenRuns json).countP labelMatches +
      (flattenRuns json).countP (fun a => !labelMatches a) =
      (flattenRuns (json.map addMetadata)).length := by
    rw [flattenRuns_addMetadata, List.length_map,
      List.length_eq_countP_add_countP (p := labelMatches) (flattenRuns json)]
    congr 1
    apply List.countP_congr
    intro a _
    simp
  rw [hlen, audit_all_eq json h,
    occurrenceTotal_map _ (fun o => ((flattenRuns (json.map addMetadata)).filter
      (fun a => decide (a.id = o))).length), sum_group_lengths]
  intro o ho
  obtain ⟨a, ha, rfl⟩ := List.mem_map.mp ((mem_firstOccurrences _ _).mp ho)
  obtain ⟨a0, hhead, hmem, -⟩ := head_filter_of_mem (fun b => decide (b.id = a.id))
    (flattenRuns (json.map addMetadata)) a ha (by simp)
  have hmem' := hmem
  rw [flattenRuns_addMetadata] at hmem'
  obtain ⟨x, -, hx⟩ := List.mem_map.mp hmem'
  have hun := decorate_unmerged x
  rw [hx] at hun
  obtain ⟨-, -, -, -, -, e6, e7, -, -⟩ :=
    mergeAssertions_of_head _ a0 hhead hun.1 hun.2.1 hun.2.2.1
  refine ⟨_, _, e6, e7, ?_⟩
  have := List.countP_le_length (fun a => decide (a.ok = some true))
    (l := (flattenRuns (json.map addMetadata)).filter (fun b => decide (b.id = a.id)))
  omega

/-- C6, amended, on the two runs of scenario C2: the total is 2 = 0 matching + 2
not matching. -/
theorem occurrenceTotal_audit_witness :
    1 < scenarioC2.length ∧
    occurrenceTotal (audit scenarioC2).all =
      some ((flattenRuns scenarioC2).countP labelMatches +
        (flattenRuns scenarioC2).countP (fun a => !labelMatches a)) :=
  ⟨by decide, occurrenceTotal_audit scenarioC2 (by decide)⟩

/-! ## Records without a module -/

theorem mem_modules_of_mem_all (tapJson : List (List (Frame Assertion))) (r : Assertion)
    (hr : r ∈ (aggregateTimings tapJson).all) :
    ∃ m ∈ (aggregateTimings tapJson).modules,
      m.module = propertyKey r.module ∧ r ∈ m.tests := by
  rw [aggregateTimings_modules]
  refine ⟨rollupModule (propertyKey r.module)
    ((aggregateTimings tapJson).all.filter
      (fun a => decide (propertyKey a.module = propertyKey r.module))), ?_, rfl, ?_⟩
  · apply List.mem_map.mpr
    refine ⟨(propertyKey r.module, (aggregateTimings tapJson).all.filter
      (fun a => decide (propertyKey a.module = propertyKey r.module))), ?_, rfl⟩
    rw [mem_groupBy]
    exact ⟨List.mem_map.mpr ⟨r, hr, rfl⟩, rfl⟩
  · show r ∈ List.filter _ _
    exact List.mem_filter.mpr ⟨hr, by simp⟩

/-- C7, counterexample: in scenario C the assertion "some raw assert" has no
`module`, and `modules` holds a ModuleStats named "undefined" whose `tests`
contain it. -/
theorem unmatched_in_undefined_module :
    (Assertion.ofRaw { name := "some raw assert", ok := true }).module = none ∧
    Assertion.ofRaw { name := "some raw assert", ok := true } ∈ (audit scenarioC).all ∧
    (audit scenarioC).modules.map (fun m => (m.module, m.tests.map (fun t => t.name))) =
      [("Suite A", [some "chrome - [120 ms] - Suite A: adds numbers"]),
       ("undefined", [some "some raw assert"])] ∧
    ∃ m ∈ (audit scenarioC).modules,
      Assertion.ofRaw { name := "some raw assert", ok := true } ∈ m.tests := by
  decide

/-- C7, amended: every assertion whose label does not match leaves in `all` a
record without `module` (the assertion itself when there is a single run), and
that record is a member of the `tests` of the ModuleStats named "undefined". -/
theorem unmatched_module_bucket (json : List (List (Frame RawAssertion)))
    (x : RawAssertion) (hx : x ∈ flattenRuns json) (hno : labelMatches x = false) :
    ∃ r ∈ (audit json).all, r.module = none ∧
      (json.length ≤ 1 → r = Assertion.ofRaw x) ∧
      ∃ m ∈ (audit json).modules, m.module = "undefined" ∧ r ∈ m.tests := by
  have hdec : decorate x = Assertion.ofRaw x := by
    rcases decorate_cases x with ⟨-, h⟩ | ⟨m, hm, -⟩
    · exact h
    · simp [labelMatches, hm] at hno
  have hflat : decorate x ∈ flattenRuns (json.map addMetadata) := by
    rw [flattenRuns_addMetadata]
    exact List.mem_map.mpr ⟨x, hx, rfl⟩
  have bucket : ∀ r ∈ (audit json).all, r.module = none →
      ∃ m ∈ (audit json).modules, m.module = "undefined" ∧ r ∈ m.tests := by
    intro r hr hmod
    obtain ⟨m, hm, hname, hmem⟩ := mem_modules_of_mem_all (json.map addMetadata) r hr
    rw [hmod] at hname
    exact ⟨m, hm, hname, hmem⟩
  by_cases hN : 1 < json.length
  · obtain ⟨r, hr, hrid⟩ := List.mem_map.mp ((audit_all_ids json hN).2.2 _ hflat)
    obtain ⟨a0, y, hy, -, hhead, hre⟩ := audit_all_mem json hN r hr
    have hun := decorate_unmerged y
    rw [← hy] at hun
    obtain ⟨e1, e2, -⟩ := mergeAssertions_of_head _ a0 hhead hun.1 hun.2.1 hun.2.2.1
    rw [← hre] at e1 e2
    have hidx : (decorate x).id = none := (decorate_id_none_iff x).mpr hno
    have hid0 : (decorate y).id = none := by rw [← hy, ← e1, hrid, hidx]
    have hmod0 : (decorate y).module = none :=
      (decorate_module_none_iff y).mpr ((decorate_id_none_iff y).mp hid0)
    have hmod : r.module = none := by rw [e2, hy, hmod0]
    exact ⟨r, hr, hmod, fun hle => absurd hN (by omega), bucket r hr hmod⟩
  · have hall : (audit json).all = flattenRuns (json.map addMetadata) :=
      aggregateTimings_all_single _ (by simp; omega)
    have hr : Assertion.ofRaw x ∈ (audit json).all := by rw [hall, ← hdec]; exact hflat
    exact ⟨Assertion.ofRaw x, hr, rfl, fun _ => rfl, bucket _ hr rfl⟩

/-- C7, amended, on scenario C. -/
theorem unmatched_module_bucket_witness :
    ∃ r ∈ (audit scenarioC).all, r.module = none ∧
      (scenarioC.length ≤ 1 → r = Assertion.ofRaw { name := "some raw assert", ok := true }) ∧
      ∃ m ∈ (audit scenarioC).modules, m.module = "undefined" ∧ r ∈ m.tests :=
  unmatched_module_bucket scenarioC { name := "some raw assert", ok := true }
    (by decide) (by decide)

/-! ## Ranking -/

theorem compareAscending_int (i j : Int) :
    compareAscending (some (JSNum.int i)) (some (JSNum.int j)) ≤ 0 ↔ i ≤ j := by
  unfold compareAscending
  rcases lt_trichotomy i j with hlt | heq | hgt
  · have h1 : ¬ j < i := by omega
    have h2 : i ≠ j := by omega
    simp [criteriaGt, JSNum.gt, hlt, h1, h2]
    omega
  · subst heq
    simp [criteriaGt, JSNum.gt]
  · have h1 : ¬ i < j := by omega
    have h2 : i ≠ j := by omega
    simp [criteriaGt, JSNum.gt, hgt, h1, h2]

theorem pairwise_orderedInsert {α : Type} (r : α → α → Prop) [DecidableRel r] (a : α)
    (l : List α) (htot : ∀ b ∈ l, ¬ r a b → r b a)
    (htr : ∀ b ∈ l, ∀ c ∈ l, r a b → r b c → r a c) (hl : l.Pairwise r) :
    (l.orderedInsert r a).Pairwise r := by
  induction l with
  | nil => simp
  | cons b l ih =>
    rw [List.orderedInsert]
    have hbl := List.pairwise_cons.mp hl
    split_ifs with hab
    · refine List.pairwise_cons.mpr ⟨?_, hl⟩
      intro c hc
      rcases List.mem_cons.mp hc with rfl | hc'
      · exact hab
      · exact htr b (List.mem_cons_self _ _) c (List.mem_cons_of_mem _ hc') hab (hbl.1 c hc')
    · refine List.pairwise_cons.mpr ⟨?_, ?_⟩
      · intro c hc
        rcases (List.mem_orderedInsert r).mp hc with rfl | hc'
        · exact htot b (List.mem_cons_self _ _) hab
        · exact hbl.1 c hc'
      · exact ih (fun c hc => htot c (List.mem_cons_of_mem _ hc))
          (fun c hc d hd => htr c (List.mem_cons_of_mem _ hc) d (List.mem_cons_of_mem _ hd))
          hbl.2

theorem pairwise_insertionSort {α : Type} (r : α → α → Prop) [DecidableRel r] (l : List α)
    (htot : ∀ a ∈ l, ∀ b ∈ l, ¬ r a b → r b a)
    (htr : ∀ a ∈ l, ∀ b ∈ l, ∀ c ∈ l, r a b → r b c → r a c) :
    (l.insertionSort r).Pairwise r := by
  induction l with
  | nil => simp
  | cons a l ih =>
    rw [List.insertionSort]
    have hm : ∀ b, b ∈ l.insertionSort r → b ∈ a :: l :=
      fun b hb => List.mem_cons_of_mem _ ((List.mem_insertionSort r).mp hb)
    apply pairwise_orderedInsert
    · exact fun b hb => htot a (List.mem_cons_self _ _) b (hm b hb)
    · exact fun b hb c hc => htr a (List.mem_cons_self _ _) b (hm b hb) c (hm c hc)
    · exact ih (fun x hx y hy => htot x (List.mem_cons_of_mem _ hx) y (List.mem_cons_of_mem _ hy))
        (fun x hx y hy z hz => htr x (List.mem_cons_of_mem _ hx) y (List.mem_cons_of_mem _ hy)
          z (List.mem_cons_of_mem _ hz))

/-- C10, counterexample: two records with the same `avg` come out of the ranking
in the opposite order. -/
theorem ranking_swaps_equal_avg :
    ranking (fun a : Assertion => a.avg)
        [{ name := some "first", avg := some (JSNum.int 100) },
         { name := some "second", avg := some (JSNum.int 100) }] =
      [{ name := some "second", avg := some (JSNum.int 100) },
       { name := some "first", avg := some (JSNum.int 100) }] ∧
    ¬ List.Sublist
      [({ name := some "first", avg := some (JSNum.int 100) } : Assertion),
       { name := some "second", avg := some (JSNum.int 100) }]
      (ranking (fun a : Assertion => a.avg)
        [{ name := some "first", avg := some (JSNum.int 100) },
         { name := some "second", avg := some (JSNum.int 100) }]) := by
  decide

/-- C10, amended: on records whose `avg` are integers, the ranking (`sortBy` on
`avg`, then `reverse`) is a rearrangement of the input in non-increasing `avg`
order, and two records with equal `avg` come out in the opposite of their
relative order in the input. -/
theorem ranking_spec {α : Type} (avg : α → Option JSNum) (key : α → Int) (xs : List α)
    (hkey : ∀ x ∈ xs, avg x = some (JSNum.int (key x))) :
    (ranking avg xs).Perm xs ∧
    (ranking avg xs).Pairwise (fun x y => key y ≤ key x) ∧
    ∀ x y, key x = key y → List.Sublist [x, y] xs → List.Sublist [y, x] (ranking avg xs) := by
  have hr : ∀ x ∈ xs, ∀ y ∈ xs,
      (compareAscending (avg x) (avg y) ≤ 0 ↔ key x ≤ key y) := by
    intro x hx y hy
    rw [hkey x hx, hkey y hy, compareAscending_int]
  refine ⟨?_, ?_, ?_⟩
  · exact (List.reverse_perm _).trans (List.perm_insertionSort _ xs)
  · unfold ranking sortBy
    rw [List.pairwise_reverse]
    have hs := pairwise_insertionSort (fun a b => compareAscending (avg a) (avg b) ≤ 0) xs
      (fun a ha b hb hab => by
        have h1 := (not_congr (hr a ha b hb)).mp hab
        exact (hr b hb a ha).mpr (by omega))
      (fun a ha b hb c hc hab hbc => by
        have h1 := (hr a ha b hb).mp hab
        have h2 := (hr b hb c hc).mp hbc
        exact (hr a ha c hc).mpr (by omega))
    refine List.Pairwise.imp_of_mem ?_ hs
    intro a b ha hb hab
    exact (hr a ((List.mem_insertionSort _).mp ha) b ((List.mem_insertionSort _).mp hb)).mp hab
  · intro x y hxy hsub
    have hx : x ∈ xs := hsub.subset (by simp)
    have hy : y ∈ xs := hsub.subset (by simp)
    have hpair : [x, y].Pairwise (fun a b => compareAscending (avg a) (avg b) ≤ 0) := by
      rw [List.pairwise_pair, hr x hx y hy, hxy]
    have := (List.sublist_insertionSort hpair hsub).reverse
    simpa [ranking, sortBy] using this

/-- C10, amended, on three records with `avg` 100, 300, 100. -/
theorem ranking_spec_witness :
    (ranking (fun a : Assertion => a.avg)
        [{ name := some "first", avg := some (JSNum.int 100) },
         { name := some "slow", avg := some (JSNum.int 300) },
         { name := some "second", avg := some (JSNum.int 100) }]).Pairwise
      (fun x y => (match y.avg with | some (JSNum.int i) => i | _ => 0) ≤
        (match x.avg with | some (JSNum.int i) => i | _ => 0)) ∧
    ranking (fun a : Assertion => a.avg)
        [{ name := some "first", avg := some (JSNum.int 100) },
         { name := some "slow", avg := some (JSNum.int 300) },
         { name := some "second", avg := some (JSNum.int 100) }] =
      [{ name := some "slow", avg := some (JSNum.int 300) },
       { name := some "second", avg := some (JSNum.int 100) },
       { name := some "first", avg := some (JSNum.int 100) }] :=
  ⟨(ranking_spec (fun a : Assertion => a.avg)
      (fun a => match a.avg with | some (JSNum.int i) => i | _ => 0)
      [{ name := some "first", avg := some (JSNum.int 100) },
       { name := some "slow", avg := some (JSNum.int 300) },
       { name := some "second", avg := some (JSNum.int 100) }]
      (by decide)).2.1,
   by decide⟩

/-! ## A single run -/

/-- C1, the code on scenario A: with one run the records of `all` are the
assertions themselves, without `avg`, `passes` or `failures`; `statsFor` then
counts both as failures and adds an absent `avg` to the duration, so the
ModuleStats of "Suite A" has `passes = 0`, `failures = 2`, `flaky = 0` and a
`duration` and `avg` that are not numbers. -/
theorem audit_scenarioA :
    (audit scenarioA).all.map (fun r => (r.duration, r.avg, r.passes, r.failures)) =
      [(some (JSNum.int 120), none, none, none), (some (JSNum.int 340), none, none, none)] ∧
    (audit scenarioA).modules.map
        (fun m => (m.module, m.passes, m.failures, m.flaky, m.duration, m.avg)) =
      [("Suite A", 0, 2, 0, JSNum.nan, JSNum.nan)] :=
  ⟨by decide, by decide⟩

/-! ## A single run: no grouping -/

theorem flattenRuns_single {α : Type} (run : List (Frame α)) :
    flattenRuns [run] = (run.map (fun t => t.asserts)).flatten := by
  simp [flattenRuns]

/-- C16: with exactly one run no grouping occurs: `all` is the concatenation of
the assertions of the run's frames, unchanged and in order; and giving `all`
back as a single run of one frame yields the same `all` and the same `modules`. -/
theorem aggregateTimings_single_run (run : List (Frame Assertion)) :
    (aggregateTimings [run]).all = (run.map (fun t => t.asserts)).flatten ∧
    (aggregateTimings [[{ asserts := (aggregateTimings [run]).all }]]).all =
      (aggregateTimings [run]).all ∧
    (aggregateTimings [[{ asserts := (aggregateTimings [run]).all }]]).modules =
      (aggregateTimings [run]).modules := by
  have h1 : (aggregateTimings [run]).all = (run.map (fun t => t.asserts)).flatten := by
    rw [aggregateTimings_all_single [run] (by simp), flattenRuns_single]
  have h2 : (aggregateTimings [[{ asserts := (aggregateTimings [run]).all }]]).all =
      (aggregateTimings [run]).all := by
    rw [aggregateTimings_all_single _ (by simp), flattenRuns_single]
    simp
  refine ⟨h1, h2, ?_⟩
  rw [aggregateTimings_modules, aggregateTimings_modules [run], h2]

/-! ## Groups without a passing entry -/

theorem add_nan_right (x : JSNum) : JSNum.add x JSNum.nan = JSNum.nan := by
  cases x <;> rfl

theorem foldl_addField_nan (l : List (Option JSNum)) :
    l.foldl JSNum.addField JSNum.nan = JSNum.nan := by
  induction l with
  | nil => rfl
  | cons o l ih =>
    rw [List.foldl_cons]
    cases o <;> simpa [JSNum.addField, JSNum.add] using ih

theorem foldl_addField_of_mem_nan (l : List (Option JSNum)) (x : JSNum)
    (h : some JSNum.nan ∈ l) : l.foldl JSNum.addField x = JSNum.nan := by
  induction l generalizing x with
  | nil => exact absurd h (List.not_mem_nil _)
  | cons o l ih =>
    rw [List.foldl_cons]
    rcases List.mem_cons.mp h with rfl | h'
    · simp only [JSNum.addField, add_nan_right]
      exact foldl_addField_nan l
    · exact ih _ h'

/-- A sum of present non-negative integers, started at a non-negative integer
or at `+Infinity`, is a non-negative integer or `+Infinity`. -/
theorem foldl_addField_nat (l : List Assertion) (x : JSNum)
    (hx : (∃ i : Int, 0 ≤ i ∧ x = JSNum.int i) ∨ x = JSNum.posInf)
    (h : ∀ a ∈ l, ∃ n : Nat, a.duration = some (JSNum.int (n : Int))) :
    (∃ i : Int, 0 ≤ i ∧
      (l.map (fun a => a.duration)).foldl JSNum.addField x = JSNum.int i) ∨
    (l.map (fun a => a.duration)).foldl JSNum.addField x = JSNum.posInf := by
  induction l generalizing x with
  | nil => exact hx
  | cons a l ih =>
    obtain ⟨n, hn⟩ := h a (List.mem_cons_self _ _)
    simp only [List.map_cons, List.foldl_cons, hn]
    apply ih _ _ (fun b hb => h b (List.mem_cons_of_mem _ hb))
    rcases hx with ⟨i, hi, rfl⟩ | rfl
    · have hin : (0 : Int) ≤ i + (n : Int) := by omega
      show (∃ j : Int, 0 ≤ j ∧ JSNum.ofInt (i + (n : Int)) = JSNum.int j) ∨
        JSNum.ofInt (i + (n : Int)) = JSNum.posInf
      unfold JSNum.ofInt
      split_ifs
      · refine Or.inl ⟨_, ?_, rfl⟩
        unfold roundInt
        rw [if_pos hin]
        exact Int.natCast_nonneg _
      · exact Or.inr rfl
    · exact Or.inr rfl

/-- The power `2^1023` is a double. -/
theorem roundNat_twoPow1023 : roundNat twoPow1023 = twoPow1023 := by
  decide!

theorem add_zero_twoPow1023 :
    JSNum.add (JSNum.int 0) (JSNum.int twoPow1023) = JSNum.int twoPow1023 := by
  show JSNum.ofInt (0 + (twoPow1023 : Int)) = _
  rw [zero_add]
  unfold JSNum.ofInt
  rw [if_pos (by rw [Int.natAbs_ofNat]; decide)]
  unfold roundInt
  rw [if_pos (Int.natCast_nonneg _), Int.toNat_ofNat, roundNat_twoPow1023]

theorem add_twoPow1023_self :
    JSNum.add (JSNum.int twoPow1023) (JSNum.int twoPow1023) = JSNum.posInf := by
  show JSNum.ofInt ((twoPow1023 : Int) + (twoPow1023 : Int)) = JSNum.posInf
  unfold JSNum.ofInt
  rw [if_neg (by rw [← Nat.cast_add, Int.natAbs_ofNat]; decide), if_pos (by positivity)]

/-- C17, counterexample: two passing entries of `2^1023` ms each. Their sum is
`2^1024`, which is `Infinity` as a double, and `Math.round(Infinity / 2)` is
`Infinity`: the group has a passing entry and its `avg` is not an integer. -/
theorem mergeAssertions_avg_infinite :
    (mergeAssertions
      [{ ok := some true, duration := some (JSNum.int twoPow1023) },
       { ok := some true, duration := some (JSNum.int twoPow1023) }]).avg =
      some JSNum.posInf ∧
    ¬ ∃ i : Int, (mergeAssertions
      [{ ok := some true, duration := some (JSNum.int twoPow1023) },
       { ok := some true, duration := some (JSNum.int twoPow1023) }]).avg =
      some (JSNum.int i) := by
  have h : (mergeAssertions
      [{ ok := some true, duration := some (JSNum.int twoPow1023) },
       { ok := some true, duration := some (JSNum.int twoPow1023) }]).avg =
      some JSNum.posInf := by
    simp only [mergeAssertions, List.filter, decide_True, List.map, List.foldl, JSNum.addField,
      add_zero_twoPow1023, add_twoPow1023_self, List.length]
    rfl
  refine ⟨h, ?_⟩
  rintro ⟨i, hi⟩
  rw [h] at hi
  simp at hi

/-- C17, amended: in a non-empty group of assertions with non-negative integer
durations (none carrying an `avg` of its own), the `avg` set by
`mergeAssertions` is an integer or `+Infinity` if and only if some entry has
`ok = true`, and it is an integer when the passing durations add up to less
than `2^53`; when no entry has `ok = true`, `avg` is `NaN` (the division of 0
by 0, nothing replaces it), and a ModuleStats whose `tests` contain such a
record has `duration = NaN` and `avg = NaN`. -/
theorem mergeAssertions_avg_nan (l : List Assertion) (hne : l ≠ [])
    (hfresh : ∀ a ∈ l, a.avg = none)
    (hdur : ∀ a ∈ l, ∃ n : Nat, a.duration = some (JSNum.int (n : Int))) :
    ((∃ a ∈ l, a.ok = some true) ↔
      ((∃ i : Int, (mergeAssertions l).avg = some (JSNum.int i)) ∨
        (mergeAssertions l).avg = some JSNum.posInf)) ∧
    (∀ ds : List Nat,
      (l.filter (fun a => decide (a.ok = some true))).map (fun a => a.duration) =
        ds.map (fun (n : Nat) => some (JSNum.int (n : Int))) →
      ds ≠ [] → ds.sum < twoPow53 →
      ∃ i : Int, (mergeAssertions l).avg = some (JSNum.int i)) ∧
    ((∀ a ∈ l, a.ok ≠ some true) → (mergeAssertions l).avg = some JSNum.nan) ∧
    ((∀ a ∈ l, a.ok ≠ some true) → ∀ (name : String) (tests : List Assertion),
      mergeAssertions l ∈ tests →
      (rollupModule name tests).duration = JSNum.nan ∧
      (rollupModule name tests).avg = JSNum.nan) := by
  obtain ⟨a0, rest, rfl⟩ := List.exists_cons_of_ne_nil hne
  have havg := mergeAssertions_avg_of_head (a0 :: rest) a0 rfl
    (hfresh a0 (List.mem_cons_self _ _))
  have hnone : (∀ a ∈ a0 :: rest, a.ok ≠ some true) →
      (mergeAssertions (a0 :: rest)).avg = some JSNum.nan := by
    intro hno
    have hf : (a0 :: rest).filter (fun a => decide (a.ok = some true)) = [] := by
      rw [List.filter_eq_nil_iff]
      intro a ha
      simpa using hno a ha
    rw [havg, hf]
    rfl
  refine ⟨⟨?_, ?_⟩, ?_, hnone, ?_⟩
  · rintro ⟨a, ha, hok⟩
    have hmem : a ∈ (a0 :: rest).filter (fun a => decide (a.ok = some true)) :=
      List.mem_filter.mpr ⟨ha, by simpa using hok⟩
    have hpos : 0 < ((a0 :: rest).filter (fun a => decide (a.ok = some true))).length :=
      List.length_pos_of_mem hmem
    rcases foldl_addField_nat
      ((a0 :: rest).filter (fun a => decide (a.ok = some true))) (JSNum.int 0)
      (Or.inl ⟨0, le_refl _, rfl⟩)
      (fun b hb => hdur b (List.mem_filter.mp hb).1) with ⟨i, -, hi⟩ | hi
    · obtain ⟨j, hj⟩ := roundDiv_int_exists i _ hpos
      exact Or.inl ⟨j, by rw [havg, hi, hj]⟩
    · exact Or.inr (by rw [havg, hi]; rfl)
  · intro h
    by_contra hno
    have hno' : ∀ a ∈ a0 :: rest, a.ok ≠ some true := fun a ha hok => hno ⟨a, ha, hok⟩
    rw [hnone hno'] at h
    simp at h
  · intro ds hds hpass hsum
    have hlen : ((a0 :: rest).filter (fun a => decide (a.ok = some true))).length =
        ds.length := by
      have := congrArg List.length hds
      simpa using this
    have hpos : 0 < ((a0 :: rest).filter (fun a => decide (a.ok = some true))).length := by
      rw [hlen]
      exact List.length_pos.mpr hpass
    have hfold := foldl_addField_int ds 0 (by omega)
    simp only [Nat.cast_zero, Nat.zero_add] at hfold
    obtain ⟨j, hj⟩ := roundDiv_int_exists ((ds.sum : Nat) : Int) _ hpos
    exact ⟨j, by rw [havg, hds, hfold, hj]⟩
  · intro hno name tests hmem
    have hd : (statsFor tests).duration = JSNum.nan := by
      rw [statsFor_duration]
      apply foldl_addField_of_mem_nan
      exact List.mem_map.mpr ⟨_, hmem, hnone hno⟩
    refine ⟨hd, ?_⟩
    show JSNum.roundDiv (statsFor tests).duration tests.length = JSNum.nan
    rw [hd]
    rfl

/-- C17, amended, on a test that failed in both runs (0 ms each time). -/
theorem mergeAssertions_avg_nan_witness :
    (mergeAssertions
      [{ ok := some false, duration := some (JSNum.int 0) },
       { ok := some false, duration := some (JSNum.int 0) }]).avg = some JSNum.nan :=
  (mergeAssertions_avg_nan
    [{ ok := some false, duration := some (JSNum.int 0) },
     { ok := some false, duration := some (JSNum.int 0) }]
    (by decide) (by decide)
    (fun a ha => ⟨0, by
      simp only [List.mem_cons, List.mem_singleton, List.not_mem_nil, or_false, or_self] at ha
      rw [ha]; rfl⟩)).2.2.1 (by decide)

/-! ## Tiers of the summary -/

/-- C18, counterexample: a test with `avg = 900` is above 800 and gets the
normal tier (`'green'`), not the warning tier. -/
theorem testMethod_900 :
    testMethod (some (JSNum.int 900)) = Style.green ∧ (800 : Int) < 900 ∧ (900 : Int) ≤ 5000 := by
  decide

/-- C18, amended: for an integer average, a module line is `'yellow'` exactly
when `800 < avg ≤ 3000` and `'red'` exactly when `avg > 3000`; a test line is
`'yellow'` exactly when `1000 < avg ≤ 5000` and `'red'` exactly when
`avg > 5000`; otherwise the line is `'green'`. -/
theorem summary_tiers (a : Int) :
    (moduleMethod (JSNum.int a) = Style.yellow ↔ 800 < a ∧ a ≤ 3000) ∧
    (moduleMethod (JSNum.int a) = Style.red ↔ 3000 < a) ∧
    (moduleMethod (JSNum.int a) = Style.green ↔ a ≤ 800) ∧
    (testMethod (some (JSNum.int a)) = Style.yellow ↔ 1000 < a ∧ a ≤ 5000) ∧
    (testMethod (some (JSNum.int a)) = Style.red ↔ 5000 < a) ∧
    (testMethod (some (JSNum.int a)) = Style.green ↔ a ≤ 1000) := by
  have e800 : ((800 : Nat) : Int) = 800 := rfl
  have e1000 : ((1000 : Nat) : Int) = 1000 := rfl
  have e3000 : ((3000 : Nat) : Int) = 3000 := rfl
  have e5000 : ((5000 : Nat) : Int) = 5000 := rfl
  simp only [moduleMethod, testMethod, JSNum.ofField, JSNum.gtNat, e800, e1000, e3000, e5000,
    decide_eq_true_eq]
  refine ⟨?_, ?_, ?_, ?_, ?_, ?_⟩ <;> split_ifs <;>
    simp only [reduceCtorEq, false_iff, true_iff, not_and, not_lt, not_le] <;> omega

/-! ## The label pattern on constructed labels -/

theorem matchTail_shape (s : List Char) (r : List Char × List Char × List Char)
    (h : matchTail s = some r) : ∃ w1 w2 rest, s = w1 :: '-' :: w2 :: '[' :: rest := by
  unfold matchTail at h
  split at h
  · exact ⟨_, _, _, rfl⟩
  · exact absurd h (by simp)

theorem matchTail_none_of_no_bracket (s : List Char) (h : '[' ∉ s) : matchTail s = none := by
  cases hm : matchTail s with
  | none => rfl
  | some r =>
    obtain ⟨w1, w2, rest, rfl⟩ := matchTail_shape s r hm
    exact absurd (by simp) h

theorem splitBrowser_none_of_no_bracket (s b : List Char) (h : '[' ∉ s) :
    splitBrowser b s = none := by
  induction s generalizing b with
  | nil => rfl
  | cons c cs ih =>
    rw [splitBrowser, matchTail_none_of_no_bracket _ h]
    have := ih (b ++ [c]) (fun hc => h (List.mem_cons_of_mem _ hc))
    simp only [this]
    split <;> rfl

theorem matchLabel_none_of_no_bracket (name : String) (h : '[' ∉ name.data) :
    matchLabel name = none := by
  unfold matchLabel
  cases hd : name.data with
  | nil => rfl
  | cons c cs =>
    have : '[' ∉ cs := fun hc => h (by rw [hd]; exact List.mem_cons_of_mem _ hc)
    simp only [splitBrowser_none_of_no_bracket cs [c] this]
    split <;> rfl

theorem withoutMetadata_decorate (a : RawAssertion) :
    withoutMetadata (decorate a) = Assertion.ofRaw a := by
  rcases decorate_cases a with ⟨-, h⟩ | ⟨m, -, h⟩ <;> rw [h] <;> rfl

theorem decorate_of_not_matches (a : RawAssertion) (h : labelMatches a = false) :
    decorate a = Assertion.ofRaw a := by
  rcases decorate_cases a with ⟨-, h'⟩ | ⟨m, hm, -⟩
  · exact h'
  · simp [labelMatches, hm] at h

/-- C15: `addMetadata` returns the same frames in the same order, each with the
same assertions in the same order; apart from the five properties `browser`,
`module`, `test`, `duration` and `id` every assertion is what the parser gave
(same `name`, same `ok`, nothing else set); an assertion whose name does not
match is the parser's object unmodified, and a name without `[` (such as
"some raw assert") never matches. -/
theorem addMetadata_frame (tapJson : List (Frame RawAssertion)) :
    (addMetadata tapJson).length = tapJson.length ∧
    (addMetadata tapJson).map (fun f => f.asserts.map withoutMetadata) =
      tapJson.map (fun f => f.asserts.map Assertion.ofRaw) ∧
    addMetadata tapJson = tapJson.map (fun f =>
      { asserts := f.asserts.map
          (fun a => if labelMatches a = true then decorate a else Assertion.ofRaw a) }) ∧
    (∀ a : RawAssertion, '[' ∉ a.name.data → labelMatches a = false) ∧
    labelMatches { name := "some raw assert", ok := true } = false := by
  refine ⟨by simp [addMetadata], ?_, ?_, ?_, by decide⟩
  · unfold addMetadata
    rw [List.map_map]
    apply List.map_congr_left
    intro f _
    simp only [Function.comp, List.map_map]
    apply List.map_congr_left
    intro a _
    exact withoutMetadata_decorate a
  · unfold addMetadata
    apply List.map_congr_left
    intro f _
    congr 1
    apply List.map_congr_left
    intro a _
    cases h : labelMatches a
    · simp [decorate_of_not_matches a h]
    · simp
  · intro a ha
    simp [labelMatches, matchLabel_none_of_no_bracket a.name ha]

theorem dropLiteral_append (p s : List Char) : dropLiteral p (p ++ s) = some s := by
  induction p with
  | nil => cases s <;> rfl
  | cons c p ih => simp [dropLiteral, ih]

theorem matchTest_shape (s t : List Char) (h : matchTest s = some t) :
    s = ':' :: ' ' :: t := by
  unfold matchTest at h
  match s, h with
  | [], h => simp [dropLiteral] at h
  | [c], h =>
    simp only [dropLiteral] at h
    split_ifs at h
  | c :: d :: s', h =>
    simp only [dropLiteral] at h
    split_ifs at h with h1 h2
    simp only at h
    split_ifs at h
    simp only [Option.some.injEq] at h
    subst h1 h2 h
    rfl

theorem matchTest_sep (t : List Char) (ht : t ≠ [])
    (hlt : ∀ c ∈ t, isLineTerminator c = false) : matchTest (':' :: ' ' :: t) = some t := by
  have hall : (t.all fun c => !isLineTerminator c) = true := by
    rw [List.all_eq_true]
    intro c hc
    simp [hlt c hc]
  simp [matchTest, dropLiteral, ht, hall]

theorem splitModule_spec (suf pre t : List Char) (ht : t ≠ [])
    (hlt : ∀ c ∈ t, isLineTerminator c = false)
    (hsuf : ∀ c ∈ suf, isLineTerminator c = false)
    (hsep : ¬ List.IsInfix [':', ' '] suf) :
    splitModule pre (suf ++ ':' :: ' ' :: t) = some (pre ++ suf, t) := by
  induction suf generalizing pre with
  | nil =>
    rw [List.nil_append, splitModule, matchTest_sep t ht hlt]
    simp
  | cons x suf ih =>
    have hnone : matchTest (x :: suf ++ ':' :: ' ' :: t) = none := by
      cases hm : matchTest (x :: suf ++ ':' :: ' ' :: t) with
      | none => rfl
      | some r =>
        exfalso
        have hs := matchTest_shape _ _ hm
        cases suf with
        | nil =>
          simp only [List.cons_append, List.nil_append, List.cons.injEq] at hs
          exact absurd hs.2.1 (by decide)
        | cons y suf' =>
          simp only [List.cons_append, List.cons.injEq] at hs
          apply hsep
          rw [hs.1, hs.2.1]
          exact ⟨[], suf', rfl⟩
    have hx : isLineTerminator x = false := hsuf x (List.mem_cons_self _ _)
    have hsep' : ¬ List.IsInfix [':', ' '] suf := by
      rintro ⟨u, v, huv⟩
      exact hsep ⟨x :: u, v, by simp [← huv]⟩
    rw [List.cons_append, splitModule]
    rw [List.cons_append] at hnone
    simp only [hnone, hx, Bool.false_eq_true, if_false]
    rw [ih (pre ++ [x]) (fun c hc => hsuf c (List.mem_cons_of_mem _ hc)) hsep']
    simp

theorem takeWhile_digits (ds rest : List Char) (hds : ∀ c ∈ ds, c.isDigit = true) :
    (ds ++ ' ' :: rest).takeWhile Char.isDigit = ds ∧
    (ds ++ ' ' :: rest).dropWhile Char.isDigit = ' ' :: rest := by
  induction ds with
  | nil =>
    have : Char.isDigit ' ' = false := by decide
    simp [List.takeWhile, List.dropWhile, this]
  | cons d ds ih =>
    have hd := hds d (List.mem_cons_self _ _)
    have ih' := ih (fun c hc => hds c (List.mem_cons_of_mem _ hc))
    simp [List.takeWhile, List.dropWhile, hd, ih'.1, ih'.2]

theorem matchTail_spec (ds mc : List Char) (m0 : Char) (t : List Char)
    (hds : ds ≠ []) (hdig : ∀ c ∈ ds, c.isDigit = true)
    (hm : ∀ c ∈ m0 :: mc, isLineTerminator c = false)
    (hsep : ¬ List.IsInfix [':', ' '] (m0 :: mc))
    (ht : t ≠ []) (hlt : ∀ c ∈ t, isLineTerminator c = false) :
    matchTail (' ' :: '-' :: ' ' :: '[' ::
        (ds ++ ' ' :: 'm' :: 's' :: ']' :: ' ' :: '-' :: ' ' :: (m0 :: mc ++ ':' :: ' ' :: t))) =
      some (ds, m0 :: mc, t) := by
  have hsp : isWhiteSpace ' ' = true := by decide
  have htd := takeWhile_digits ds
    ('m' :: 's' :: ']' :: ' ' :: '-' :: ' ' :: (m0 :: mc ++ ':' :: ' ' :: t)) hdig
  have hlit : dropLiteral [' ', 'm', 's', ']', ' ', '-', ' ']
      (' ' :: 'm' :: 's' :: ']' :: ' ' :: '-' :: ' ' :: (m0 :: mc ++ ':' :: ' ' :: t)) =
      some (m0 :: (mc ++ ':' :: ' ' :: t)) :=
    dropLiteral_append [' ', 'm', 's', ']', ' ', '-', ' '] _
  have hsep' : ¬ List.IsInfix [':', ' '] mc := by
    rintro ⟨u, v, huv⟩
    exact hsep ⟨m0 :: u, v, by simp [← huv]⟩
  have hsm := splitModule_spec mc [m0] t ht hlt
    (fun c hc => hm c (List.mem_cons_of_mem _ hc)) hsep'
  have hm0 : isLineTerminator m0 = false := hm m0 (List.mem_cons_self _ _)
  simp only [matchTail, hsp, Bool.and_self, if_true, htd.1, htd.2, hds, if_false, hlit, hm0,
    Bool.false_eq_true, hsm, List.singleton_append]

theorem matchTail_none_before (suf : List Char) (x : Char) (rest : List Char)
    (hsuf : '[' ∉ x :: suf) :
    matchTail (x :: suf ++ ' ' :: '-' :: ' ' :: '[' :: rest) = none := by
  cases hmt : matchTail (x :: suf ++ ' ' :: '-' :: ' ' :: '[' :: rest) with
  | none => rfl
  | some r =>
    exfalso
    obtain ⟨w1, w2, rest', hs⟩ := matchTail_shape _ r hmt
    match suf, hsuf, hs with
    | [], _, hs =>
      simp only [List.cons_append, List.nil_append, List.cons.injEq] at hs
      exact absurd hs.2.1 (by decide)
    | [_], _, hs =>
      simp only [List.cons_append, List.nil_append, List.cons.injEq] at hs
      exact absurd hs.2.2.2.1 (by decide)
    | [_, _], _, hs =>
      simp only [List.cons_append, List.nil_append, List.cons.injEq] at hs
      exact absurd hs.2.2.2.1 (by decide)
    | _ :: _ :: c :: _, hsuf, hs =>
      simp only [List.cons_append, List.cons.injEq] at hs
      apply hsuf
      rw [hs.2.2.2.1]
      simp

theorem splitBrowser_spec (suf pre rest : List Char)
    (r : List Char × List Char × List Char)
    (hsuf : '[' ∉ suf) (hlt : ∀ c ∈ suf, isLineTerminator c = false)
    (htail : matchTail (' ' :: '-' :: ' ' :: '[' :: rest) = some r) :
    splitBrowser pre (suf ++ ' ' :: '-' :: ' ' :: '[' :: rest) = some (pre ++ suf, r) := by
  induction suf generalizing pre with
  | nil =>
    rw [List.nil_append, splitBrowser, htail]
    simp
  | cons x suf ih =>
    have hnone := matchTail_none_before suf x rest hsuf
    have hx : isLineTerminator x = false := hlt x (List.mem_cons_self _ _)
    rw [List.cons_append] at hnone
    rw [List.cons_append, splitBrowser]
    simp only [hnone, hx, Bool.false_eq_true, if_false]
    rw [ih (pre ++ [x]) (fun h => hsuf (List.mem_cons_of_mem _ h))
      (fun c hc => hlt c (List.mem_cons_of_mem _ hc))]
    simp

/-- C14, counterexample: the label `chrome - [9007199254740993 ms] - Suite A: adds
numbers` gets the duration 9007199254740992, the double nearest to the value
9007199254740993 of its digits. -/
theorem decorate_label_rounds :
    (decorate { name := "chrome - [9007199254740993 ms] - Suite A: adds numbers",
                ok := true }).duration = some (JSNum.int 9007199254740992) ∧
    digitsValue "9007199254740993".data = 9007199254740993 ∧
    (decorate { name := "chrome - [9007199254740993 ms] - Suite A: adds numbers",
                ok := true }).duration ≠
      some (JSNum.int (digitsValue "9007199254740993".data)) := by
  decide

/-- C14, amended: for a browser `b` (not empty, no `[`), a digit string `N` (not
empty) of value below `2^53`, a module `m` (not empty, no `": "` inside) and a
test `t` (not empty), none with a line terminator, `addMetadata` reads from the
label `b + " - [" + N + " ms] - " + m + ": " + t` the browser `b`, the duration
given by the digits of `N`, the module `m`, the test `t` and the id
`m + ": " + t`. -/
theorem decorate_label (b N m t : String) (ok : Bool)
    (hb : b.data ≠ []) (hbr : '[' ∉ b.data)
    (hN : N.data ≠ []) (hdig : ∀ c ∈ N.data, c.isDigit = true)
    (hm : m.data ≠ []) (hsep : ¬ List.IsInfix [':', ' '] m.data)
    (ht : t.data ≠ [])
    (hlt : ∀ c ∈ b.data ++ m.data ++ t.data, isLineTerminator c = false)
    (hval : digitsValue N.data < twoPow53) :
    decorate { name := b ++ " - [" ++ N ++ " ms] - " ++ m ++ ": " ++ t, ok := ok } =
      { name := some (b ++ " - [" ++ N ++ " ms] - " ++ m ++ ": " ++ t)
        ok := some ok
        browser := some b
        module := some m
        test := some t
        duration := some (JSNum.int (digitsValue N.data))
        id := some (m ++ ": " ++ t) } := by
  obtain ⟨b0, bs, hbd⟩ := List.exists_cons_of_ne_nil hb
  obtain ⟨m0, mc, hmd⟩ := List.exists_cons_of_ne_nil hm
  have hltb : ∀ c ∈ b.data, isLineTerminator c = false := fun c hc => hlt c (by simp [hc])
  have hltm : ∀ c ∈ m.data, isLineTerminator c = false := fun c hc => hlt c (by simp [hc])
  have hltt : ∀ c ∈ t.data, isLineTerminator c = false := fun c hc => hlt c (by simp [hc])
  have htail := matchTail_spec N.data mc m0 t.data hN hdig (hmd ▸ hltm) (hmd ▸ hsep) ht hltt
  have hsb := splitBrowser_spec bs [b0]
    (N.data ++ ' ' :: 'm' :: 's' :: ']' :: ' ' :: '-' :: ' ' :: (m0 :: mc ++ ':' :: ' ' :: t.data))
    _ (fun h => hbr (hbd ▸ List.mem_cons_of_mem _ h))
    (fun c hc => hltb c (hbd ▸ List.mem_cons_of_mem _ hc)) htail
  have hname : (b ++ " - [" ++ N ++ " ms] - " ++ m ++ ": " ++ t).data =
      b0 :: (bs ++ ' ' :: '-' :: ' ' :: '[' ::
        (N.data ++ ' ' :: 'm' :: 's' :: ']' :: ' ' :: '-' :: ' ' ::
          (m0 :: mc ++ ':' :: ' ' :: t.data))) := by
    simp [String.data_append, hbd, hmd]
  have hb0 : isLineTerminator b0 = false := hltb b0 (hbd ▸ List.mem_cons_self _ _)
  have hmatch : matchLabel (b ++ " - [" ++ N ++ " ms] - " ++ m ++ ": " ++ t) =
      some { browser := b, duration := digitsValue N.data, module := m, test := t } := by
    unfold matchLabel
    rw [hname]
    simp only [hb0, Bool.false_eq_true, if_false]
    rw [hsb]
    simp only [List.singleton_append, ← hbd, ← hmd]
  unfold decorate
  simp only [hmatch, Assertion.ofRaw]
  rw [ofInt_natCast _ hval]

/-- C14, amended, on "chrome - [120 ms] - Suite A: adds numbers". -/
theorem decorate_label_witness :
    decorate { name := "chrome" ++ " - [" ++ "120" ++ " ms] - " ++ "Suite A" ++ ": " ++
        "adds numbers", ok := true } =
      { name := some "chrome - [120 ms] - Suite A: adds numbers"
        ok := some true
        browser := some "chrome"
        module := some "Suite A"
        test := some "adds numbers"
        duration := some (JSNum.int 120)
        id := some "Suite A: adds numbers" } :=
  (decorate_label "chrome" "120" "Suite A" "adds numbers" true
    (by decide) (by decide) (by decide) (by decide) (by decide) (by decide) (by decide)
    (by decide) (by decide)).trans (by decide)

/-! ## Module rollups against the totals -/

theorem groupInsert_flatten_perm {α : Type} (k : String) (x : α)
    (g : List (String × List α)) :
    ((groupInsert k x g).map Prod.snd).flatten.Perm ((g.map Prod.snd).flatten ++ [x]) := by
  induction g with
  | nil => simp [groupInsert]
  | cons p rest ih =>
    obtain ⟨k', l⟩ := p
    unfold groupInsert
    split_ifs with hk
    · simp only [List.map_cons, List.flatten_cons, List.append_assoc]
      exact List.Perm.append_left l List.perm_append_comm
    · simp only [List.map_cons, List.flatten_cons, List.append_assoc]
      exact List.Perm.append_left l ih

theorem groupByInsertion_flatten_perm {α : Type} (key : α → String) (xs : List α) :
    ((groupByInsertion key xs).map Prod.snd).flatten.Perm xs := by
  have gen : ∀ (ys : List α) (acc : List (String × List α)),
      ((ys.foldl (fun acc x => groupInsert (key x) x acc) acc).map Prod.snd).flatten.Perm
        ((acc.map Prod.snd).flatten ++ ys) := by
    intro ys
    induction ys with
    | nil => intro acc; simp
    | cons y ys ih =>
      intro acc
      rw [List.foldl_cons]
      refine (ih _).trans ?_
      refine ((groupInsert_flatten_perm (key y) y acc).append_right ys).trans ?_
      simp
  simpa [groupByInsertion] using gen xs []

theorem ownPropertyOrder_perm {β : Type} (props : List (String × β)) :
    (ownPropertyOrder props).Perm props := by
  unfold ownPropertyOrder
  exact ((List.perm_insertionSort _ _).append_right _).trans
    (List.filter_append_perm (fun p => isArrayIndex p.1) props)

/-- The groups of `groupBy` together hold every element exactly once. -/
theorem groupBy_flatten_perm {α : Type} (key : α → String) (xs : List α) :
    ((groupBy key xs).map Prod.snd).flatten.Perm xs :=
  (((ownPropertyOrder_perm (groupByInsertion key xs)).map Prod.snd).flatten).trans
    (groupByInsertion_flatten_perm key xs)

theorem statsFor_counts (tests : List Assertion) :
    (statsFor tests).flaky =
        tests.countP (fun a => countGtZero a.passes && countGtZero a.failures) ∧
    (statsFor tests).passes =
        tests.countP (fun a => countGtZero a.passes && !countGtZero a.failures) ∧
    (statsFor tests).failures = tests.countP (fun a => !countGtZero a.passes) := by
  obtain ⟨h1, h2, h3, -⟩ := statsStep_fold tests {}
  exact ⟨by simpa using h1, by simpa using h2, by simpa using h3⟩

/-- The `duration` of `statsFor` over records whose `avg` are natural numbers of
sum below `2^53` is that sum. -/
theorem statsFor_duration_nat (tests : List Assertion) (ns : List Nat)
    (havg : tests.map (fun a => a.avg) = ns.map (fun (n : Nat) => some (JSNum.int (n : Int))))
    (hsum : ns.sum < twoPow53) :
    (statsFor tests).duration = JSNum.int ((ns.sum : Nat) : Int) := by
  have h := foldl_addField_int ns 0 (by omega)
  rw [statsFor_duration, havg]
  simpa using h

theorem map_avg_of_forall (f : Assertion → Nat) (l : List Assertion)
    (h : ∀ a ∈ l, a.avg = some (JSNum.int ((f a : Nat) : Int))) :
    l.map (fun a => a.avg) =
      (l.map f).map (fun (n : Nat) => some (JSNum.int (n : Int))) := by
  rw [List.map_map]
  exact List.map_congr_left (fun a ha => h a ha)

theorem forall_of_map_avg (l : List Assertion) (ns : List Nat)
    (h : l.map (fun a => a.avg) = ns.map (fun (n : Nat) => some (JSNum.int (n : Int)))) :
    ∃ f : Assertion → Nat, (∀ a ∈ l, a.avg = some (JSNum.int ((f a : Nat) : Int))) ∧
      l.map f = ns := by
  refine ⟨fun a => match a.avg with
    | some (JSNum.int i) => i.toNat
    | _ => 0, ?_, ?_⟩
  · intro a ha
    have hmem : a.avg ∈ l.map (fun a => a.avg) := List.mem_map.mpr ⟨a, ha, rfl⟩
    rw [h] at hmem
    obtain ⟨n, -, hn⟩ := List.mem_map.mp hmem
    beta_reduce
    rw [← hn]
    simp
  · induction l generalizing ns with
    | nil =>
      cases ns with
      | nil => rfl
      | cons n ns => simp at h
    | cons a l ih =>
      cases ns with
      | nil => simp at h
      | cons n ns =>
        simp only [List.map_cons, List.cons.injEq] at h
        rw [List.map_cons, ih ns h.2, h.1]
        simp

theorem sum_countP_groups {α : Type} (p : α → Bool) (gs : List (List α)) :
    (gs.map (fun g => g.countP p)).sum = gs.flatten.countP p := by
  induction gs with
  | nil => simp
  | cons g gs ih =>
    rw [List.map_cons, List.sum_cons, ih, List.flatten_cons, List.countP_append]

/-- Adding up the `duration` of `statsFor` over groups of records with natural
`avg` gives the sum over all their members, while it stays below `2^53`. -/
theorem foldl_add_groups (f : Assertion → Nat) (gs : List (String × List Assertion))
    (s : Nat) (hall : ∀ g ∈ gs, ∀ a ∈ g.2, a.avg = some (JSNum.int ((f a : Nat) : Int)))
    (hb : s + ((gs.map Prod.snd).flatten.map f).sum < twoPow53) :
    (gs.map (fun g => (rollupModule g.1 g.2).duration)).foldl JSNum.add (JSNum.int (s : Int)) =
      JSNum.int ((s + ((gs.map Prod.snd).flatten.map f).sum : Nat) : Int) := by
  induction gs generalizing s with
  | nil => simp
  | cons g gs ih =>
    simp only [List.map_cons, List.flatten_cons, List.map_append, List.sum_append] at hb ⊢
    have hg : (rollupModule g.1 g.2).duration = JSNum.int (((g.2.map f).sum : Nat) : Int) :=
      statsFor_duration_nat g.2 (g.2.map f)
        (map_avg_of_forall f g.2 (hall g (List.mem_cons_self _ _))) (by omega)
    rw [List.foldl_cons, hg, add_int_nat _ _ (by omega),
      ih (s + (g.2.map f).sum) (fun g' hg' => hall g' (List.mem_cons_of_mem _ hg'))
        (by omega)]
    congr 2
    omega

/-- C19, counterexample: two runs of one test of module A (9007199254740991 ms)
and three tests of module B (1 ms each). The module rollups have the durations
9007199254740991 and 3, of sum 9007199254740994; the total adds the four `avg`
one after the other and stops at 9007199254740992, since 9007199254740993 is
not a double. -/
theorem rollups_exceed_totals :
    (audit largeRuns).modules.map (fun m => (m.module, m.duration)) =
      [("A", JSNum.int 9007199254740991), ("B", JSNum.int 3)] ∧
    (statsFor (audit largeRuns).all).duration = JSNum.int 9007199254740992 ∧
    ((audit largeRuns).modules.map (fun m => m.duration)).foldl JSNum.add (JSNum.int 0) =
      JSNum.int 9007199254740994 ∧
    ((audit largeRuns).modules.map (fun m => m.duration)).foldl JSNum.add (JSNum.int 0) ≠
      (statsFor (audit largeRuns).all).duration := by
  decide

/-- C19, amended: the counts of `statsFor` are additive over concatenation and the
sums over `modules` of `passes`, `failures` and `flaky` are those of
`statsFor(all)`; the same holds of `duration` when the `avg` of the records are
natural numbers of sum below `2^53`; and the `tests` of the modules together
hold every record of `all` exactly once. -/
theorem rollups_match_totals (tapJson : List (List (Frame Assertion)))
    (xs ys : List Assertion) :
    ((statsFor (xs ++ ys)).passes = (statsFor xs).passes + (statsFor ys).passes ∧
     (statsFor (xs ++ ys)).failures = (statsFor xs).failures + (statsFor ys).failures ∧
     (statsFor (xs ++ ys)).flaky = (statsFor xs).flaky + (statsFor ys).flaky ∧
     (∀ ns ms : List Nat,
       xs.map (fun a => a.avg) = ns.map (fun (n : Nat) => some (JSNum.int (n : Int))) →
       ys.map (fun a => a.avg) = ms.map (fun (n : Nat) => some (JSNum.int (n : Int))) →
       ns.sum + ms.sum < twoPow53 →
       (statsFor (xs ++ ys)).duration =
         JSNum.add (statsFor xs).duration (statsFor ys).duration)) ∧
    (((aggregateTimings tapJson).modules.map (fun m => m.passes)).sum =
       (statsFor (aggregateTimings tapJson).all).passes ∧
     ((aggregateTimings tapJson).modules.map (fun m => m.failures)).sum =
       (statsFor (aggregateTimings tapJson).all).failures ∧
     ((aggregateTimings tapJson).modules.map (fun m => m.flaky)).sum =
       (statsFor (aggregateTimings tapJson).all).flaky ∧
     (∀ ns : List Nat,
       (aggregateTimings tapJson).all.map (fun a => a.avg) =
         ns.map (fun (n : Nat) => some (JSNum.int (n : Int))) →
       ns.sum < twoPow53 →
       ((aggregateTimings tapJson).modules.map (fun m => m.duration)).foldl JSNum.add
           (JSNum.int 0) =
         (statsFor (aggregateTimings tapJson).all).duration)) ∧
    ((aggregateTimings tapJson).modules.map (fun m => m.tests)).flatten.Perm
      (aggregateTimings tapJson).all := by
  obtain ⟨x1, x2, x3⟩ := statsFor_counts xs
  obtain ⟨y1, y2, y3⟩ := statsFor_counts ys
  obtain ⟨z1, z2, z3⟩ := statsFor_counts (xs ++ ys)
  obtain ⟨a1, a2, a3⟩ := statsFor_counts (aggregateTimings tapJson).all
  have hperm := groupBy_flatten_perm (fun a => propertyKey a.module)
    (aggregateTimings tapJson).all
  have hmap : ∀ (f : ModuleStats → Nat) (p : Assertion → Bool),
      (∀ name tests, f (rollupModule name tests) = tests.countP p) →
      ((aggregateTimings tapJson).modules.map f).sum =
        (aggregateTimings tapJson).all.countP p := by
    intro f p hf
    rw [aggregateTimings_modules, List.map_map, ← hperm.countP_eq, ← sum_countP_groups,
      List.map_map]
    congr 1
    apply List.map_congr_left
    intro q _
    exact hf q.1 q.2
  refine ⟨⟨?_, ?_, ?_, ?_⟩, ⟨?_, ?_, ?_, ?_⟩, ?_⟩
  · rw [z2, x2, y2, List.countP_append]
  · rw [z3, x3, y3, List.countP_append]
  · rw [z1, x1, y1, List.countP_append]
  · intro ns ms hns hms hsum
    have hcat : (xs ++ ys).map (fun a => a.avg) =
        (ns ++ ms).map (fun (n : Nat) => some (JSNum.int (n : Int))) := by
      rw [List.map_append, List.map_append, hns, hms]
    rw [statsFor_duration_nat (xs ++ ys) (ns ++ ms) hcat (by rw [List.sum_append]; exact hsum),
      statsFor_duration_nat xs ns hns (by omega), statsFor_duration_nat ys ms hms (by omega),
      add_int_nat _ _ hsum, List.sum_append]
  · rw [a2]
    exact hmap _ _ (fun name tests => (statsFor_counts tests).2.1)
  · rw [a3]
    exact hmap _ _ (fun name tests => (statsFor_counts tests).2.2)
  · rw [a1]
    exact hmap _ _ (fun name tests => (statsFor_counts tests).1)
  · intro ns hns hsum
    obtain ⟨f, hf, hfs⟩ := forall_of_map_avg _ ns hns
    have hsumeq : (((groupBy (fun a => propertyKey a.module)
        (aggregateTimings tapJson).all).map Prod.snd).flatten.map f).sum = ns.sum := by
      rw [(hperm.map f).sum_eq, hfs]
    have hgroups := foldl_add_groups f
      (groupBy (fun a => propertyKey a.module) (aggregateTimings tapJson).all) 0
      (fun g hg a ha => hf a (hperm.subset
        (List.mem_flatten.mpr ⟨g.2, List.mem_map.mpr ⟨g, hg, rfl⟩, ha⟩)))
      (by rw [hsumeq]; omega)
    rw [statsFor_duration_nat _ ns hns hsum, aggregateTimings_modules, List.map_map]
    rw [hsumeq] at hgroups
    simpa using hgroups
  · rw [aggregateTimings_modules, List.map_map]
    exact hperm

/-- C19, amended, on scenario B (one test, 150 ms then failing): the module "Suite
A" and the totals both count one flaky test and 150 ms. -/
theorem rollups_match_totals_witness :
    ((audit scenarioB).modules.map (fun m => m.flaky)).sum =
      (statsFor (audit scenarioB).all).flaky ∧
    ((audit scenarioB).modules.map (fun m => m.duration)).foldl JSNum.add (JSNum.int 0) =
      (statsFor (audit scenarioB).all).duration ∧
    (statsFor (audit scenarioB).all).duration = JSNum.int 150 :=
  ⟨(rollups_match_totals (scenarioB.map addMetadata) [] []).2.1.2.2.1,
   (rollups_match_totals (scenarioB.map addMetadata) [] []).2.1.2.2.2 [150]
     (by decide) (by decide),
   by decide⟩

/-! ## Decimal digits -/

theorem toDigitsCore_eq (f : Nat) : ∀ (n : Nat) (ds : List Char), n < f →
    Nat.toDigitsCore 10 f n ds = Nat.toDigitsCore 10 (n + 1) n [] ++ ds := by
  induction f using Nat.strong_induction_on with
  | _ f ih =>
    intro n ds hn
    cases f with
    | zero => omega
    | succ f =>
      rw [Nat.toDigitsCore, Nat.toDigitsCore]
      by_cases h0 : n / 10 = 0
      · simp [h0]
      · simp only [h0, if_false]
        have hlt : n / 10 < n := by omega
        rw [ih f (by omega) (n / 10) _ (by omega), ih n (by omega) (n / 10) _ hlt]
        simp

theorem toDigits_lt_ten (n : Nat) (h : n < 10) :
    Nat.toDigits 10 n = [Nat.digitChar n] := by
  have h0 : n / 10 = 0 := by omega
  have h1 : n % 10 = n := by omega
  simp [Nat.toDigits, Nat.toDigitsCore, h0, h1]

theorem toDigits_ge_ten (n : Nat) (h : 10 ≤ n) :
    Nat.toDigits 10 n = Nat.toDigits 10 (n / 10) ++ [Nat.digitChar (n % 10)] := by
  have h0 : n / 10 ≠ 0 := by omega
  have hlt : n / 10 < n := by omega
  unfold Nat.toDigits
  rw [Nat.toDigitsCore]
  simp only [h0, if_false]
  exact toDigitsCore_eq n (n / 10) _ hlt

theorem digitChar_isDigit (k : Nat) (h : k < 10) : (Nat.digitChar k).isDigit = true := by
  interval_cases k <;> decide

theorem digitChar_value (k : Nat) (h : k < 10) : (Nat.digitChar k).toNat - 48 = k := by
  interval_cases k <;> decide

theorem toDigits_isDigit (n : Nat) : ∀ c ∈ Nat.toDigits 10 n, c.isDigit = true := by
  induction n using Nat.strong_induction_on with
  | _ n ih =>
    intro c hc
    by_cases h : n < 10
    · rw [toDigits_lt_ten n h] at hc
      rw [List.mem_singleton.mp hc]
      exact digitChar_isDigit n h
    · rw [toDigits_ge_ten n (by omega), List.mem_append] at hc
      rcases hc with hc | hc
      · exact ih (n / 10) (by omega) c hc
      · rw [List.mem_singleton.mp hc]
        exact digitChar_isDigit _ (Nat.mod_lt _ (by decide))

theorem digitsValue_append_singleton (l : List Char) (c : Char) :
    digitsValue (l ++ [c]) = 10 * digitsValue l + (c.toNat - 48) := by
  simp [digitsValue, List.foldl_append]

theorem digitsValue_toDigits (n : Nat) : digitsValue (Nat.toDigits 10 n) = n := by
  induction n using Nat.strong_induction_on with
  | _ n ih =>
    by_cases h : n < 10
    · rw [toDigits_lt_ten n h]
      simp only [digitsValue, List.foldl_cons, List.foldl_nil]
      rw [digitChar_value n h]
      omega
    · rw [toDigits_ge_ten n (by omega), digitsValue_append_singleton, ih (n / 10) (by omega),
        digitChar_value _ (Nat.mod_lt _ (by decide))]
      omega

theorem toDigits_length_pos (n : Nat) : 0 < (Nat.toDigits 10 n).length := by
  by_cases h : n < 10
  · rw [toDigits_lt_ten n h]; simp
  · rw [toDigits_ge_ten n (by omega)]; simp

theorem toDigits_length_lt_hundred (n : Nat) (h1 : 10 ≤ n) (h2 : n < 100) :
    (Nat.toDigits 10 n).length = 2 := by
  rw [toDigits_ge_ten n h1, toDigits_lt_ten (n / 10) (by omega)]
  rfl

theorem toDigits_length_lt_thousand (n : Nat) (h1 : 100 ≤ n) (h2 : n < 1000) :
    (Nat.toDigits 10 n).length = 3 := by
  rw [toDigits_ge_ten n (by omega), List.length_append,
    toDigits_length_lt_hundred (n / 10) (by omega) (by omega)]
  rfl

theorem digitsValue_zeros (k : Nat) (l : List Char) :
    digitsValue (List.replicate k '0' ++ l) = digitsValue l := by
  induction k with
  | zero => simp
  | succ k ih =>
    have : ∀ l', digitsValue ('0' :: l') = digitsValue l' := by
      intro l'
      simp [digitsValue]
    rw [List.replicate_succ, List.cons_append, this, ih]

theorem digitsValue_zeroPad (w n : Nat) : digitsValue (zeroPad w n) = n := by
  rw [zeroPad, digitsValue_zeros, digitsValue_toDigits]

theorem zeroPad_two (s : Nat) (h : s < 100) :
    zeroPad 2 s = if s < 10 then '0' :: Nat.toDigits 10 s else Nat.toDigits 10 s := by
  unfold zeroPad
  split_ifs with h10
  · rw [toDigits_lt_ten s h10]; rfl
  · rw [toDigits_length_lt_hundred s (by omega) h]; rfl

theorem zeroPad_three (ms : Nat) (h : ms < 1000) :
    zeroPad 3 ms =
      if ms < 10 then '0' :: '0' :: Nat.toDigits 10 ms
      else if ms < 100 then '0' :: Nat.toDigits 10 ms
      else Nat.toDigits 10 ms := by
  unfold zeroPad
  split_ifs with h10 h100
  · rw [toDigits_lt_ten ms h10]; rfl
  · rw [toDigits_length_lt_hundred ms (by omega) h100]; rfl
  · rw [toDigits_length_lt_thousand ms (by omega) h]; rfl

theorem zeroPad_length (w n : Nat) (h : (Nat.toDigits 10 n).length ≤ w) :
    (zeroPad w n).length = w := by
  simp [zeroPad]
  omega

theorem zeroPad_two_length (s : Nat) (h : s < 100) : (zeroPad 2 s).length = 2 := by
  apply zeroPad_length
  by_cases h10 : s < 10
  · rw [toDigits_lt_ten s h10]; simp
  · rw [toDigits_length_lt_hundred s (by omega) h]

theorem zeroPad_three_length (ms : Nat) (h : ms < 1000) : (zeroPad 3 ms).length = 3 := by
  apply zeroPad_length
  by_cases h10 : ms < 10
  · rw [toDigits_lt_ten ms h10]; simp
  · by_cases h100 : ms < 100
    · rw [toDigits_length_lt_hundred ms (by omega) h100]; omega
    · rw [toDigits_length_lt_thousand ms (by omega) h]

/-! ## `humanDuration` -/

theorem toJSString_nat (k : Nat) (h : k < twoPow53) :
    (JSNum.toJSString (JSNum.int (k : Int))).data = Nat.toDigits 10 k := by
  show (String.mk (numberText k)).data = _
  simp [numberText, h]

theorem ltNat_nat (k j : Nat) : JSNum.ltNat (JSNum.int (k : Int)) j = decide (k < j) := by
  simp [JSNum.ltNat]

theorem truthy_nat (k : Nat) : JSNum.truthy (JSNum.int (k : Int)) = decide (k ≠ 0) := by
  simp [JSNum.truthy]

theorem thirty_mul_two_pow_ne (a b : Nat) : 30 * 2 ^ a ≠ 2 ^ b := by
  intro h
  have ha : 0 < 2 ^ a := Nat.pow_pos (by decide)
  by_cases hab : b ≤ a + 4
  · have h1 : 2 ^ b ≤ 2 ^ (a + 4) := Nat.pow_le_pow_right (by decide) hab
    have e : 2 ^ (a + 4) = 16 * 2 ^ a := by ring
    omega
  · have h1 : 2 ^ (a + 5) ≤ 2 ^ b := Nat.pow_le_pow_right (by decide) (by omega)
    have e : 2 ^ (a + 5) = 32 * 2 ^ a := by ring
    omega

/-- The significand of the nearest double to a quotient `x / y` below `2^52`
lies between `2^52` and `2^53`. -/
theorem nearestDouble_range (x y s : Nat) (hy : 0 < y)
    (hlo : twoPow52 * y ≤ x * 2 ^ s) (hhi : x * 2 ^ s < 2 * (twoPow52 * y)) :
    twoPow52 ≤ roundHalfEven (x * 2 ^ s) y ∧ roundHalfEven (x * 2 ^ s) y ≤ twoPow53 := by
  obtain ⟨b1, b2⟩ := roundHalfEven_bounds (x * 2 ^ s) y hy
  generalize roundHalfEven (x * 2 ^ s) y = n at b1 b2 ⊢
  generalize x * 2 ^ s = z at hlo hhi b1 b2
  simp only [twoPow52, twoPow53] at *
  constructor
  · by_contra hc
    have hc' : n + 1 ≤ 4503599627370496 := by omega
    have := Nat.mul_le_mul_left y hc'
    have e : y * (n + 1) = y * n + y := by ring
    rw [e] at this
    omega
  · by_contra hc
    have hc' : 9007199254740992 + 1 ≤ n := by omega
    have := Nat.mul_le_mul_left y hc'
    omega

theorem humanDuration_parts (d : Nat) (hd : d < twoPow53) :
    JSNum.rem (JSNum.int (d : Int)) 1000 = JSNum.int ((d % 1000 : Nat) : Int) ∧
    JSNum.floorSeconds (JSNum.int (d : Int)) = JSNum.int ((d / 1000 % 60 : Nat) : Int) ∧
    JSNum.floorMinutes (JSNum.int (d : Int)) = JSNum.int ((d / 60000 : Nat) : Int) := by
  have hneg : ¬ ((d : Int) < 0) := by omega
  have hsec : (nearestDouble d 1000).1 % (60 * (nearestDouble d 1000).2) /
        (nearestDouble d 1000).2 = d / 1000 % 60 ∧
      (nearestDouble (nearestDouble d 1000).1 (60 * (nearestDouble d 1000).2)).1 /
        (nearestDouble (nearestDouble d 1000).1 (60 * (nearestDouble d 1000).2)).2 =
        d / 60000 := by
    rcases Nat.eq_zero_or_pos d with rfl | hpos
    · decide
    · have hlt : d < twoPow53 * 1000 := by
        simp only [twoPow53] at *
        omega
      have hlt52 : d < twoPow52 * 1000 := by
        simp only [twoPow52, twoPow53] at *
        omega
      obtain ⟨s, hM, hlo, hhi, hN⟩ := nearestDouble_small d 1000 hpos hlt
      have hhi' := hhi hlt52
      obtain ⟨b1, b2⟩ := roundHalfEven_bounds (d * 2 ^ s) 1000 (by decide)
      obtain ⟨r1, r2⟩ := nearestDouble_range d 1000 s (by decide) hlo hhi'
      rw [← hN] at b1 b2 r1 r2
      have hs0 : 0 < 2 ^ s := Nat.pow_pos (by decide)
      have hdm : d * 2 ^ s < twoPow53 * 2 ^ s := Nat.mul_lt_mul_of_pos_right hd hs0
      have hm : 1000 < 2 * 2 ^ s := by
        simp only [twoPow52, twoPow53] at *
        omega
      have hq : (nearestDouble d 1000).1 / 2 ^ s = d / 1000 :=
        floor_of_rounded d 1000 _ (2 ^ s) (d / 1000) (by decide) b1 b2
          (Nat.div_mul_le_self d 1000) (by omega) hm
      rw [hM]
      refine ⟨?_, ?_⟩
      · rw [Nat.mod_mul_left_div_self, hq]
      · generalize (nearestDouble d 1000).1 = n at r1 r2 hq
        have hn0 : 0 < n := by
          simp only [twoPow52] at r1
          omega
        have hy : 0 < 60 * 2 ^ s := by omega
        have hnlt : n < twoPow53 * (60 * 2 ^ s) := by
          simp only [twoPow53] at *
          omega
        have hnlt52 : n < twoPow52 * (60 * 2 ^ s) := by
          simp only [twoPow52, twoPow53] at *
          omega
        obtain ⟨s2, hM2, hlo2, hhi2, hN2⟩ := nearestDouble_small n (60 * 2 ^ s) hn0 hnlt
        obtain ⟨c1, c2⟩ := roundHalfEven_bounds (n * 2 ^ s2) (60 * 2 ^ s) hy
        rw [← hN2] at c1 c2
        have hs2 : 0 < 2 ^ s2 := Nat.pow_pos (by decide)
        have hnm : n * 2 ^ s2 ≤ twoPow53 * 2 ^ s2 := Nat.mul_le_mul_right _ r2
        have hne := thirty_mul_two_pow_ne s s2
        have hm2 : 60 * 2 ^ s < 2 * 2 ^ s2 := by
          simp only [twoPow52, twoPow53] at *
          omega
        have hq2 : d / 60000 = d / 1000 / 60 := by omega
        have hl1 : d / 60000 * (60 * 2 ^ s) ≤ n := by
          have h1 : d / 60000 * 60 ≤ n / 2 ^ s := by omega
          have h2 := (Nat.le_div_iff_mul_le hs0).mp h1
          have e : d / 60000 * (60 * 2 ^ s) = d / 60000 * 60 * 2 ^ s := by ring
          omega
        have hl2 : n < (d / 60000 + 1) * (60 * 2 ^ s) := by
          have h1 : n / 2 ^ s < (d / 60000 + 1) * 60 := by omega
          have h2 := (Nat.div_lt_iff_lt_mul hs0).mp h1
          have e : (d / 60000 + 1) * (60 * 2 ^ s) = (d / 60000 + 1) * 60 * 2 ^ s := by ring
          omega
        rw [hM2]
        exact floor_of_rounded n (60 * 2 ^ s) _ (2 ^ s2) (d / 60000) hy c1 c2 hl1 hl2 hm2
  refine ⟨?_, ?_, ?_⟩
  · show JSNum.int (Int.tmod (d : Int) ((1000 : Nat) : Int)) = _
    rw [Int.tmod_eq_emod (by omega) (by omega)]
    congr 1
  · unfold JSNum.floorSeconds
    simp only [hneg, if_false, Int.natAbs_ofNat]
    rw [← hsec.1]
    norm_cast
  · unfold JSNum.floorMinutes
    simp only [hneg, if_false, Int.natAbs_ofNat]
    rw [← hsec.2]
    norm_cast

theorem humanDuration_data (d : Nat) (hd : d < twoPow53) :
    (humanDuration (JSNum.int (d : Int))).data = durationText d := by
  obtain ⟨e1, e2, e3⟩ := humanDuration_parts d hd
  have hslt : d / 1000 % 60 < 100 := by omega
  have hmslt : d % 1000 < 1000 := by omega
  have t1 := toJSString_nat (d % 1000) (by simp only [twoPow53] at *; omega)
  have t2 := toJSString_nat (d / 1000 % 60) (by simp only [twoPow53] at *; omega)
  have t3 := toJSString_nat (d / 60000) (by simp only [twoPow53] at *; omega)
  unfold humanDuration durationText
  simp only [e1, e2, e3, ltNat_nat, truthy_nat, zeroPad_two _ hslt, zeroPad_three _ hmslt]
  generalize d % 1000 = ms at t1
  generalize d / 1000 % 60 = sec at t2
  generalize d / 60000 = mi at t3
  by_cases h1 : mi = 0 <;> by_cases h2 : sec = 0 <;>
    by_cases h3 : sec < 10 <;> by_cases h4 : ms < 10 <;> by_cases h5 : ms < 100 <;>
    simp [h1, h2, h3, h4, h5, Nat.pos_iff_ne_zero, String.data_append, t1, t2, t3] <;>
    rfl

theorem durationText_inj (d e : Nat) (h : durationText d = durationText e) : d = e := by
  have hs : d / 1000 % 60 < 100 := by omega
  have hms : d % 1000 < 1000 := by omega
  have hs' : e / 1000 % 60 < 100 := by omega
  have hms' : e % 1000 < 1000 := by omega
  have l2 := zeroPad_two_length _ hs
  have l3 := zeroPad_three_length _ hms
  have l2' := zeroPad_two_length _ hs'
  have l3' := zeroPad_three_length _ hms'
  have lm := toDigits_length_pos (d / 60000)
  have lm' := toDigits_length_pos (e / 60000)
  have v2 := digitsValue_zeroPad 2 (d / 1000 % 60)
  have v3 := digitsValue_zeroPad 3 (d % 1000)
  have v2' := digitsValue_zeroPad 2 (e / 1000 % 60)
  have v3' := digitsValue_zeroPad 3 (e % 1000)
  have vm := digitsValue_toDigits (d / 60000)
  have vm' := digitsValue_toDigits (e / 60000)
  unfold durationText at h
  simp only at h
  have hlen := congrArg List.length h
  split_ifs at h hlen with a1 a2 a3 a4 a5 a6 <;>
    simp only [List.length_append, List.length_cons, List.length_nil, l2, l3, l2', l3'] at hlen
  · obtain ⟨h5, -⟩ := List.append_inj' h rfl
    obtain ⟨h4, e3⟩ := List.append_inj' h5 (by rw [l3, l3'])
    obtain ⟨h3, -⟩ := List.append_inj' h4 rfl
    obtain ⟨h2, e2⟩ := List.append_inj' h3 (by rw [l2, l2'])
    obtain ⟨e1, -⟩ := List.append_inj' h2 rfl
    rw [e1] at vm
    rw [e2] at v2
    rw [e3] at v3
    omega
  · omega
  · omega
  · omega
  · obtain ⟨h3, -⟩ := List.append_inj' h rfl
    obtain ⟨h2, e3⟩ := List.append_inj' h3 (by rw [l3, l3'])
    obtain ⟨e2, -⟩ := List.append_inj' h2 rfl
    rw [e2] at v2
    rw [e3] at v3
    omega
  · omega
  · omega
  · omega
  · obtain ⟨e3, -⟩ := List.append_inj' h rfl
    rw [e3] at v3
    omega

/-- C13, counterexample: 141064217107838992 ms. The quotient by 1000 is not a
double; the nearest one is 141064217107839, so the code prints 39 seconds where
`floor(d / 1000) mod 60` is 38. -/
theorem humanDuration_rounds_seconds :
    humanDuration (JSNum.int 141064217107838992) = "2351070285130m 39s 992ms" ∧
    141064217107838992 / 1000 % 60 = 38 ∧
    humanDuration (JSNum.int 141064217107838992) ≠
      String.mk (durationText 141064217107838992) := by
  decide

/-- C13, amended: for a duration of `d` milliseconds below `2^53`, with
`m = d / 60000`, `s = d / 1000 mod 60` and `ms = d mod 1000` (which give back
`d`), `humanDuration(d)` is `"<m>m <ss>s <mmm>ms"` when `m > 0`,
`"<ss>s <mmm>ms"` when `m = 0` and `s > 0`, and `"<mmm>ms"` otherwise, `ss` and
`mmm` being `s` and `ms` padded with zeros to two and three digits; two
different durations below `2^53` give different texts; 65234 gives
"1m 05s 234ms" and 734 gives "734ms". -/
theorem humanDuration_spec (d e : Nat) (hd : d < twoPow53) (he : e < twoPow53) :
    d / 60000 * 60000 + d / 1000 % 60 * 1000 + d % 1000 = d ∧
    humanDuration (JSNum.int (d : Int)) = String.mk (durationText d) ∧
    (humanDuration (JSNum.int (d : Int)) = humanDuration (JSNum.int (e : Int)) → d = e) ∧
    humanDuration (JSNum.int 65234) = "1m 05s 234ms" ∧
    humanDuration (JSNum.int 734) = "734ms" := by
  refine ⟨by omega, ?_, ?_, by decide, by decide⟩
  · rw [String.ext_iff]
    exact humanDuration_data d hd
  · intro h
    apply durationText_inj
    rw [← humanDuration_data d hd, ← humanDuration_data e he, h]

/-- C13, amended, at 65234 ms: "1m 05s 234ms", with minutes, two-digit seconds and
three-digit milliseconds as `durationText` lays them out. -/
theorem humanDuration_spec_witness :
    humanDuration (JSNum.int 65234) = String.mk (durationText 65234) ∧
    durationText 65234 = "1m 05s 234ms".data :=
  ⟨(humanDuration_spec 65234 734 (by decide) (by decide)).2.1, by decide⟩

/-! ## `withCommas` -/

theorem spliceComma_append (i : Nat) (p q : List Char) (h : i ≤ p.length) :
    spliceComma i (p ++ q) = spliceComma i p ++ q := by
  unfold spliceComma
  rw [List.take_append_of_le_length h, List.drop_append_of_le_length h]
  simp

theorem spliceComma_length (i : Nat) (p : List Char) :
    (spliceComma i p).length = p.length + 1 := by
  unfold spliceComma
  rw [List.length_append, List.length_cons, List.length_take, List.length_drop]
  omega

theorem commaLoop_append : ∀ (j : Nat) (p q : List Char), j ≤ p.length →
    commaLoop j (p ++ q) = commaLoop j p ++ q
  | 0, _, _, _ => rfl
  | 1, p, q, h => spliceComma_append 1 p q h
  | 2, p, q, h => spliceComma_append 2 p q h
  | j + 3, p, q, h => by
    rw [commaLoop, commaLoop, spliceComma_append _ _ _ h]
    exact commaLoop_append j _ q (by rw [spliceComma_length]; omega)

theorem commaLoop_step (i : Nat) (l : List Char) (h0 : 0 < i) (h : i ≤ l.length) :
    commaLoop i l = commaLoop (i - 3) (l.take i) ++ ',' :: l.drop i := by
  match i, h0, h with
  | 1, _, _ => rfl
  | 2, _, _ => rfl
  | j + 3, _, h =>
    rw [commaLoop]
    show commaLoop j (l.take (j + 3) ++ ',' :: l.drop (j + 3)) = _
    rw [commaLoop_append j _ _ (by rw [List.length_take]; omega)]
    rfl

theorem commaLoop_groups (k : Nat) : ∀ (l : List Char), l.length = k → l ≠ [] →
    ∃ (g : List Char) (gs : List (List Char)),
      commaLoop (l.length - 3) l = g ++ (gs.map (fun x => ',' :: x)).flatten ∧
      g ++ gs.flatten = l ∧ 1 ≤ g.length ∧ g.length ≤ 3 ∧ ∀ x ∈ gs, x.length = 3 := by
  induction k using Nat.strong_induction_on with
  | _ k ih =>
    intro l hk hl
    have hpos : 0 < l.length := List.length_pos.mpr hl
    by_cases h3 : l.length ≤ 3
    · refine ⟨l, [], ?_, by simp, hpos, h3, by simp⟩
      have : l.length - 3 = 0 := by omega
      rw [this]
      simp [commaLoop]
    · have hi0 : 0 < l.length - 3 := by omega
      have hi : l.length - 3 ≤ l.length := by omega
      have htl : (l.take (l.length - 3)).length = l.length - 3 := by
        rw [List.length_take]; omega
      have hne : l.take (l.length - 3) ≠ [] := by
        intro he
        rw [he] at htl
        simp at htl
        omega
      obtain ⟨g, gs, e1, e2, e3, e4, e5⟩ :=
        ih (l.length - 3) (by omega) (l.take (l.length - 3)) htl hne
      rw [htl] at e1
      refine ⟨g, gs ++ [l.drop (l.length - 3)], ?_, ?_, e3, e4, ?_⟩
      · rw [commaLoop_step _ _ hi0 hi, e1]
        simp
      · rw [List.flatten_append, ← List.append_assoc, e2]
        simp
      · intro x hx
        rcases List.mem_append.mp hx with hx | hx
        · exact e5 x hx
        · rw [List.mem_singleton.mp hx, List.length_drop]
          omega

theorem splitDot_digits (ds : List Char) (h : ∀ c ∈ ds, c.isDigit = true) :
    splitDot ds = (ds, none) := by
  have hne : ∀ c ∈ ds, (c != '.') = true := by
    intro c hc
    have hd := h c hc
    rw [bne_iff_ne]
    rintro rfl
    exact absurd hd (by decide)
  have h1 : ds.dropWhile (fun c => c != '.') = [] := by
    rw [List.dropWhile_eq_nil_iff]
    exact hne
  have h2 : ds.takeWhile (fun c => c != '.') = ds := by
    rw [List.takeWhile_eq_self_iff]
    exact hne
  simp [splitDot, h1, h2]

theorem withCommas_data (n : Nat) (hn : n < twoPow53) :
    (withCommas (JSNum.int (n : Int))).data =
      commaLoop ((Nat.toDigits 10 n).length - 3) (Nat.toDigits 10 n) := by
  unfold withCommas
  simp only [toJSString_nat n hn, splitDot_digits _ (toDigits_isDigit n)]

theorem filter_groups (g : List Char) (gs : List (List Char))
    (hg : ∀ c ∈ g ++ gs.flatten, c.isDigit = true) :
    (g ++ (gs.map (fun x => ',' :: x)).flatten).filter (fun c => c != ',') =
      g ++ gs.flatten := by
  have hdig : ∀ (l : List Char), (∀ c ∈ l, c.isDigit = true) →
      l.filter (fun c => c != ',') = l := by
    intro l hl
    rw [List.filter_eq_self]
    intro c hc
    rw [bne_iff_ne]
    rintro rfl
    exact absurd (hl _ hc) (by decide)
  induction gs generalizing g with
  | nil => simpa using hdig g (by simpa using hg)
  | cons x gs ih =>
    have := ih (g ++ x) (by simpa using hg)
    simp only [List.map_cons, List.flatten_cons, List.filter_append, List.filter_cons] at this ⊢
    simp only [List.filter_append, List.append_assoc] at this
    have hc : (',' != ',') = false := by decide
    simp only [hc, Bool.false_eq_true, if_false]
    rw [← List.append_assoc, ← List.append_assoc]
    simpa [List.filter_append] using this

theorem getLast?_groups (gs : List (List Char)) : ∀ (g : List Char),
    (∀ x ∈ gs, x ≠ []) →
    (g ++ (gs.map (fun x => ',' :: x)).flatten).getLast? = (g ++ gs.flatten).getLast? := by
  induction gs with
  | nil => intro g _; simp
  | cons x gs ih =>
    intro g hne
    have hx : x ≠ [] := hne x (List.mem_cons_self _ _)
    have h1 := ih (g ++ ',' :: x) (fun y hy => hne y (List.mem_cons_of_mem _ hy))
    have h2 : (',' :: (x ++ gs.flatten)).getLast? = (x ++ gs.flatten).getLast? := by
      cases x with
      | nil => exact absurd rfl hx
      | cons a x => simp
    simp only [List.map_cons, List.flatten_cons, List.append_assoc, List.cons_append] at h1 ⊢
    rw [h1]
    simp only [List.getLast?_append, h2]

/-- C20, counterexample: the text of `10^21` is `1e+21`, which has no dot, so the
loop starts three characters from its end and `withCommas` gives `1e,+21`:
without the comma the text is not the decimal digits of the number, and the
comma is not followed by three digits. -/
theorem withCommas_exponent :
    withCommas (JSNum.int 1000000000000000000000) = "1e,+21" ∧
    (withCommas (JSNum.int 1000000000000000000000)).data.filter (fun c => c != ',') ≠
      Nat.toDigits 10 1000000000000000000000 := by
  decide

/-- C20, amended: for a non-negative integer `n` below `2^53`, `withCommas(n)` is a
first group of one to three digits followed by groups of exactly three digits,
each preceded by a comma, and the groups put together are the decimal digits of
`n`. So removing the commas gives back the digits, the text neither starts nor
ends with a comma, a number below 1000 is unchanged, and 1234567 gives
"1,234,567". -/
theorem withCommas_spec (n : Nat) (hn : n < twoPow53) :
    (∃ (g : List Char) (gs : List (List Char)),
      (withCommas (JSNum.int (n : Int))).data = g ++ (gs.map (fun x => ',' :: x)).flatten ∧
      g ++ gs.flatten = Nat.toDigits 10 n ∧ 1 ≤ g.length ∧ g.length ≤ 3 ∧
      ∀ x ∈ gs, x.length = 3) ∧
    (∀ c ∈ Nat.toDigits 10 n, c.isDigit = true) ∧
    (withCommas (JSNum.int (n : Int))).data.filter (fun c => c != ',') = Nat.toDigits 10 n ∧
    (withCommas (JSNum.int (n : Int))).data.head? ≠ some ',' ∧
    (withCommas (JSNum.int (n : Int))).data.getLast? ≠ some ',' ∧
    withCommas (JSNum.int ((n % 1000 : Nat) : Int)) = String.mk (Nat.toDigits 10 (n % 1000)) ∧
    withCommas (JSNum.int 1234567) = "1,234,567" := by
  have hdig := toDigits_isDigit n
  have hne : Nat.toDigits 10 n ≠ [] := List.length_pos.mp (toDigits_length_pos n)
  obtain ⟨g, gs, e1, e2, e3, e4, e5⟩ := commaLoop_groups _ (Nat.toDigits 10 n) rfl hne
  rw [← withCommas_data n hn] at e1
  have hcomma : ¬ ',' ∈ Nat.toDigits 10 n := fun h => absurd (hdig _ h) (by decide)
  refine ⟨⟨g, gs, e1, e2, e3, e4, e5⟩, hdig, ?_, ?_, ?_, ?_, by decide⟩
  · rw [e1, filter_groups g gs (by rw [e2]; exact hdig), e2]
  · intro h
    rw [e1, List.head?_append] at h
    cases g with
    | nil => simp at e3
    | cons a g =>
      simp only [List.head?_cons, Option.or_some, Option.some.injEq] at h
      apply hcomma
      rw [← e2, h]
      simp
  · intro h
    rw [e1, getLast?_groups gs g (fun x hx hx0 => by have := e5 x hx; rw [hx0] at this; simp at this),
      e2] at h
    exact hcomma (List.mem_of_getLast?_eq_some h)
  · have hlt : n % 1000 < 1000 := Nat.mod_lt _ (by decide)
    have hlen : (Nat.toDigits 10 (n % 1000)).length - 3 = 0 := by
      by_cases h10 : n % 1000 < 10
      · rw [toDigits_lt_ten _ h10]; rfl
      · by_cases h100 : n % 1000 < 100
        · rw [toDigits_length_lt_hundred _ (by omega) h100]
        · rw [toDigits_length_lt_thousand _ (by omega) hlt]
    rw [String.ext_iff,
      withCommas_data _ (lt_trans hlt (by decide : 1000 < twoPow53)), hlen]
    rfl

/-- C20, amended, at 1234567: the groups `1`, `234`, `567`. -/
theorem withCommas_spec_witness :
    (withCommas (JSNum.int 1234567)).data.filter (fun c => c != ',') =
      Nat.toDigits 10 1234567 ∧
    withCommas (JSNum.int 1234567) = "1,234,567" :=
  ⟨(withCommas_spec 1234567 (by decide)).2.2.1, by decide⟩

/-! ## The report and the summary -/

theorem ranking_perm {α : Type} (avg : α → Option JSNum) (xs : List α) :
    (ranking avg xs).Perm xs :=
  (List.reverse_perm _).trans (List.perm_insertionSort _ xs)

theorem ranking_pairwise {α : Type} (avg : α → Option JSNum) (key : α → Int) (xs : List α)
    (hkey : ∀ x ∈ xs, avg x = some (JSNum.int (key x))) :
    (ranking avg xs).Pairwise (fun x y => key y ≤ key x) := by
  have hr : ∀ x ∈ xs, ∀ y ∈ xs,
      (compareAscending (avg x) (avg y) ≤ 0 ↔ key x ≤ key y) := by
    intro x hx y hy
    rw [hkey x hx, hkey y hy, compareAscending_int]
  unfold ranking sortBy
  rw [List.pairwise_reverse]
  have hs := pairwise_insertionSort (fun a b => compareAscending (avg a) (avg b) ≤ 0) xs
    (fun a ha b hb hab => by
      have h1 := (not_congr (hr a ha b hb)).mp hab
      exact (hr b hb a ha).mpr (by omega))
    (fun a ha b hb c hc hab hbc => by
      have h1 := (hr a ha b hb).mp hab
      have h2 := (hr b hb c hc).mp hbc
      exact (hr a ha c hc).mpr (by omega))
  refine List.Pairwise.imp_of_mem ?_ hs
  intro a b ha hb hab
  exact (hr a ((List.mem_insertionSort _).mp ha) b ((List.mem_insertionSort _).mp hb)).mp hab

/-- C11: for an aggregation result with M modules and T records, all with integer
`avg`, the lines of `getComplete` are: the totals line, an empty line,
"Modules (avg)", one line "<avg> avg per test (<duration> total): <module>" for
each module, an empty line, "Tests (avg)", and one line "<avg>: <name>" for each
record, `avg` and `duration` rendered by `humanDuration`; modules and records
each appear exactly once, in non-increasing `avg` order; that is 5 + M + T lines. -/
theorem getCompleteLines_spec (aggregation : Timings) (mkey : ModuleStats → Int)
    (tkey : Assertion → Int)
    (hm : ∀ m ∈ aggregation.modules, m.avg = JSNum.int (mkey m))
    (ht : ∀ t ∈ aggregation.all, t.avg = some (JSNum.int (tkey t))) :
    (getCompleteLines aggregation).length =
      5 + aggregation.modules.length + aggregation.all.length ∧
    ∃ (ms : List ModuleStats) (ts : List Assertion),
      ms.Perm aggregation.modules ∧ ts.Perm aggregation.all ∧
      ms.Pairwise (fun x y => mkey y ≤ mkey x) ∧
      ts.Pairwise (fun x y => tkey y ≤ tkey x) ∧
      getCompleteLines aggregation =
        [totalsLine (statsFor aggregation.all), "", "Modules (avg)"] ++
          ms.map (fun m => humanDuration m.avg ++ " avg per test (" ++
            humanDuration m.duration ++ " total): " ++ m.module) ++
          ["", "Tests (avg)"] ++
          ts.map (fun t => humanDuration (JSNum.ofField t.avg) ++ ": " ++
            templateText t.name) := by
  have pm := ranking_perm (fun m : ModuleStats => some m.avg) aggregation.modules
  have pt := ranking_perm (fun t : Assertion => t.avg) aggregation.all
  refine ⟨?_, ranking (fun m => some m.avg) aggregation.modules,
    ranking (fun t => t.avg) aggregation.all, pm, pt, ?_, ?_, rfl⟩
  · simp only [getCompleteLines, List.length_append, List.length_map, List.length_cons,
      List.length_nil, pm.length_eq, pt.length_eq]
    omega
  · exact ranking_pairwise _ mkey _ (fun m hmem => congrArg some (hm m hmem))
  · exact ranking_pairwise _ tkey _ ht

/-- C11 on the report of scenario B: 5 + 1 + 1 lines. -/
theorem getCompleteLines_spec_witness :
    (getCompleteLines (audit scenarioB)).length =
      5 + (audit scenarioB).modules.length + (audit scenarioB).all.length ∧
    getCompleteLines (audit scenarioB) =
      ["Total Tests: 1 (1 flaky) Total Time: 150ms (150ms)", "", "Modules (avg)",
       "150ms avg per test (150ms total): Suite A", "", "Tests (avg)",
       "150ms: Suite A: adds numbers"] :=
  ⟨(getCompleteLines_spec (audit scenarioB)
      (fun m => match m.avg with | JSNum.int i => i | _ => 0)
      (fun t => match t.avg with | some (JSNum.int i) => i | _ => 0)
      (by decide) (by decide)).1,
   by decide⟩

/-- C12: when the modules have pairwise distinct integer `avg`, the module section
of `printSummary` lists `min(10, M)` modules, in strictly descending `avg`
order, each with a greater `avg` than every module left out, while the module
section of `getComplete` lists all `M` modules. -/
theorem slowestModules_spec (aggregation : Timings) (key : ModuleStats → Int)
    (hkey : ∀ m ∈ aggregation.modules, m.avg = JSNum.int (key m))
    (hdist : (aggregation.modules.map key).Nodup) :
    printSummary aggregation =
      [[(Style.bold, totalsLine (statsFor aggregation.all))], [(Style.plain, "")],
       [(Style.bold, "Slowest Modules (avg)")]] ++
        (slowestModules aggregation).map summaryModuleLine ++
        [[(Style.plain, "")], [(Style.bold, "Slowest Tests (avg)")]] ++
        (slowestTests aggregation).map summaryTestLine ∧
    ((slowestModules aggregation).map summaryModuleLine).length =
      min 10 aggregation.modules.length ∧
    (slowestModules aggregation).Pairwise (fun x y => key y < key x) ∧
    (∀ x ∈ slowestModules aggregation, x ∈ aggregation.modules) ∧
    (∀ x ∈ slowestModules aggregation, ∀ y ∈ aggregation.modules,
      y ∉ slowestModules aggregation → key y < key x) ∧
    ((ranking (fun m => some m.avg) aggregation.modules).map reportModuleLine).length =
      aggregation.modules.length ∧
    (ranking (fun m => some m.avg) aggregation.modules).Perm aggregation.modules := by
  have pm := ranking_perm (fun m : ModuleStats => some m.avg) aggregation.modules
  have hle := ranking_pairwise (fun m : ModuleStats => some m.avg) key aggregation.modules
    (fun m hmem => congrArg some (hkey m hmem))
  have hnd : (ranking (fun m : ModuleStats => some m.avg) aggregation.modules).Pairwise
      (fun x y => key x ≠ key y) := by
    have : ((ranking (fun m : ModuleStats => some m.avg) aggregation.modules).map key).Nodup :=
      ((pm.map key).nodup_iff).mpr hdist
    exact List.pairwise_map.mp this
  have hlt : (ranking (fun m : ModuleStats => some m.avg) aggregation.modules).Pairwise
      (fun x y => key y < key x) :=
    (hle.and hnd).imp (fun h => lt_of_le_of_ne h.1 (fun e => h.2 e.symm))
  have hsplit := List.take_append_drop 10
    (ranking (fun m : ModuleStats => some m.avg) aggregation.modules)
  refine ⟨rfl, ?_, ?_, ?_, ?_, ?_, pm⟩
  · simp only [slowestModules, List.length_map, List.length_take, pm.length_eq]
  · exact hlt.sublist (List.take_sublist _ _)
  · intro x hx
    exact pm.subset (List.mem_of_mem_take hx)
  · intro x hx y hy hny
    have hy' : y ∈ ranking (fun m : ModuleStats => some m.avg) aggregation.modules :=
      pm.symm.subset hy
    rw [← hsplit] at hy' hlt
    rcases List.mem_append.mp hy' with h | h
    · exact absurd h hny
    · exact (List.pairwise_append.mp hlt).2.2 x hx y h
  · rw [List.length_map, pm.length_eq]

/-- C12 on 15 modules with distinct averages: 10 lines in the summary, 15 in the
report. -/
theorem slowestModules_spec_witness :
    ((slowestModules fifteenModules).map summaryModuleLine).length = 10 ∧
    ((ranking (fun m => some m.avg) fifteenModules.modules).map reportModuleLine).length = 15 ∧
    (slowestModules fifteenModules).map (fun m => m.avg) =
      [JSNum.int 1500, JSNum.int 1400, JSNum.int 1300, JSNum.int 1200, JSNum.int 1100,
       JSNum.int 1000, JSNum.int 900, JSNum.int 800, JSNum.int 700, JSNum.int 600] := by
  have h := slowestModules_spec fifteenModules
    (fun m => match m.avg with | JSNum.int i => i | _ => 0) (by decide) (by decide)
  exact ⟨h.2.1.trans (by decide), h.2.2.2.2.2.1.trans (by decide), by decide⟩

end EmberTestAudit
